import Mathlib

/-!
Verification of the JSON access-log analyser (`src/main.py`).

The program ingests newline-delimited JSON log records from files, optionally
filters them to one calendar date, and aggregates them into three reports
(`average`, `user_agent`, `status`).  This file is a shallow embedding of the
`LogProcessor` and `ReportGenerator` classes: Python dicts become association
lists, JSON scalars become an inductive type, Python numbers (int/float)
become exact rationals, exceptions become `Except`, and the mutable
`self.logs` store is threaded explicitly.  The standard-library functions the
source calls (`json.loads`, `datetime.fromisoformat`) are parameters of the
loader; concrete model instances are supplied for evaluation on examples.
-/

namespace LogFile

/-- A JSON scalar value as stored in a log-record field.  The spec's data
model (§3) restricts field values to string, number, boolean, null.  Numbers
(Python `int`/`float` produced by `json.loads`) are modelled as exact
rationals. -/
inductive JVal where
  | str (s : String)
  | num (q : ℚ)
  | bool (b : Bool)
  | null
deriving DecidableEq

/-- A parsed log record: a Python dict from field name to JSON scalar.
Keys are unique (Python dict); lookup takes the first binding. -/
abbrev LogRecord := List (String × JVal)

/-- `dict.get(key)` without a default: `none` models Python `None`-for-absent. -/
def recGet (r : LogRecord) (k : String) : Option JVal :=
  match r.find? (fun p => p.1 == k) with
  | some p => some p.2
  | none => none

/-- Python truthiness `bool(v)` of a JSON scalar. -/
def JVal.truthy : JVal → Bool
  | .str s => s != ""
  | .num q => q != 0
  | .bool b => b
  | .null => false

/-- ASCII lower-casing of one character (models `str.lower()` on the ASCII
range, which covers user-agent strings). -/
def pyLowerChar (c : Char) : Char :=
  if 65 ≤ c.toNat ∧ c.toNat ≤ 90 then Char.ofNat (c.toNat + 32) else c

/-- `str.lower()`. -/
def pyLower (s : String) : String := String.mk (s.data.map pyLowerChar)

/-- Substring test on character lists: some tail of `s` starts with `pat`. -/
def charsContains (pat s : List Char) : Bool :=
  s.tails.any (fun t => pat.isPrefixOf t)

/-- Python's `pat in s` substring operator. -/
def pyContains (s pat : String) : Bool := charsContains pat.data s.data

/-- Python whitespace for `str.strip()` (space, tab, LF, VT, FF, CR). -/
def pyIsSpace (c : Char) : Bool :=
  c.toNat == 32 || c.toNat == 9 || c.toNat == 10 || c.toNat == 11 ||
    c.toNat == 12 || c.toNat == 13

/-- `str.strip()`: remove leading and trailing whitespace. -/
def pyStrip (s : String) : String :=
  String.mk (((s.data.dropWhile pyIsSpace).reverse.dropWhile pyIsSpace).reverse)

/-- `str.replace(old, new)` for a one-character `old` (the source's only use
is `.replace('Z', '+00:00')`): every occurrence is replaced. -/
def pyReplaceChar (s : String) (old : Char) (new : String) : String :=
  String.mk ((s.data.map (fun c => if c = old then new.data else [c])).flatten)

/-- Digit string to number, `int()` on an all-digit ASCII string. -/
def digitsToNat (l : List Char) : Nat :=
  l.foldl (fun n c => n * 10 + (c.toNat - 48)) 0

/-- `LogProcessor._extract_browser_from_user_agent` (src/main.py:182-219):
special cases first, then case-insensitive substring rules in source order. -/
def extract_browser_from_user_agent (user_agent : String) : String :=
  if user_agent == "" || user_agent == "..." then "Unknown"
  else
    let ual := pyLower user_agent
    if pyContains ual "edg/" then "Edge"
    else if pyContains ual "firefox" then "Firefox"
    else if pyContains ual "chrome" then "Chrome"
    else if pyContains ual "safari" && !pyContains ual "chrome" then "Safari"
    else if pyContains ual "opera" || pyContains ual "opr/" then "Opera"
    else if pyContains ual "trident" || pyContains ual "msie" then "Internet Explorer"
    else if pyContains ual "curl" then "curl"
    else if pyContains ual "wget" then "wget"
    else if pyContains ual "python" then "Python"
    else if pyContains ual "bot" || pyContains ual "crawler" then "Bot/Crawler"
    else "Other"

/-- The browser-classification rule table exactly as the spec (§4.2) words it:
an ordered list of (predicate on the lower-cased string, label). -/
def specBrowserRules : List ((String → Bool) × String) :=
  [ (fun l => pyContains l "edg/", "Edge"),
    (fun l => pyContains l "firefox", "Firefox"),
    (fun l => pyContains l "chrome", "Chrome"),
    (fun l => pyContains l "safari" && !pyContains l "chrome", "Safari"),
    (fun l => pyContains l "opera" || pyContains l "opr/", "Opera"),
    (fun l => pyContains l "trident" || pyContains l "msie", "Internet Explorer"),
    (fun l => pyContains l "curl", "curl"),
    (fun l => pyContains l "wget", "wget"),
    (fun l => pyContains l "python", "Python"),
    (fun l => pyContains l "bot" || pyContains l "crawler", "Bot/Crawler") ]

/-- Spec-side classifier: special cases, then first matching rule, else Other. -/
def specClassifyBrowser (ua : String) : String :=
  if ua == "" || ua == "..." then "Unknown"
  else
    match specBrowserRules.find? (fun rule => rule.1 (pyLower ua)) with
    | some rule => rule.2
    | none => "Other"

/-! ## Rounding (`round(x, n)`) -/

/-- Floor of a rational as a computable integer division. -/
def ratFloor (q : ℚ) : ℤ := Int.fdiv q.num q.den

/-- Round to the nearest integer, ties to the even neighbour — the rounding
Python's built-in `round` uses. -/
def roundHalfEven (q : ℚ) : ℤ :=
  let f := ratFloor q
  let r := q - (f : ℚ)
  if r < 1/2 then f
  else if 1/2 < r then f + 1
  else if f % 2 = 0 then f else f + 1

/-- Python `round(x, n)` on exact decimal values: scale by `10^n`, round half
to even, scale back. -/
def pyRoundTo (n : Nat) (q : ℚ) : ℚ :=
  (roundHalfEven (q * (10 : ℚ) ^ n) : ℚ) / (10 : ℚ) ^ n

/-! ## Calendar dates -/

/-- A `datetime.date`: the calendar date triple. -/
structure PyDate where
  year : Nat
  month : Nat
  day : Nat
deriving DecidableEq

/-- Gregorian leap-year rule (as in `datetime`). -/
def isLeapYear (y : Nat) : Bool :=
  (y % 4 == 0 && y % 100 != 0) || y % 400 == 0

/-- Days in a month (as validated by the `datetime` constructor). -/
def daysInMonth (y m : Nat) : Nat :=
  if m = 1 ∨ m = 3 ∨ m = 5 ∨ m = 7 ∨ m = 8 ∨ m = 10 ∨ m = 12 then 31
  else if m = 4 ∨ m = 6 ∨ m = 9 ∨ m = 11 then 30
  else if isLeapYear y then 29 else 28

/-- Split a character list at every occurrence of `c` (like `str.split`). -/
def splitOnChar (c : Char) : List Char → List (List Char)
  | [] => [[]]
  | x :: xs =>
    let r := splitOnChar c xs
    if x = c then [] :: r
    else
      match r with
      | [] => [[x]]
      | g :: gs => (x :: g) :: gs

/-- `datetime.strptime(s, '%Y-%m-%d').date()` as CPython implements it:
`%Y` matches exactly four digits, `%m` and `%d` match one or two digits
(zero padding is optional when parsing), the whole string must be consumed,
and the `datetime` constructor then validates the calendar values
(`1 <= year`, `1 <= month <= 12`, `1 <= day <= days-in-month`). -/
def pyStrptimeDate (s : String) : Option PyDate :=
  match splitOnChar (Char.ofNat 45) s.data with
  | [ys, ms, ds] =>
    if ys.length = 4 ∧ ys.all Char.isDigit
        ∧ (ms.length = 1 ∨ ms.length = 2) ∧ ms.all Char.isDigit
        ∧ (ds.length = 1 ∨ ds.length = 2) ∧ ds.all Char.isDigit then
      let y := digitsToNat ys
      let m := digitsToNat ms
      let d := digitsToNat ds
      if 1 ≤ y ∧ 1 ≤ m ∧ m ≤ 12 ∧ 1 ≤ d ∧ d ≤ daysInMonth y m then
        some ⟨y, m, d⟩
      else none
    else none
  | _ => none

/-- The literal pattern `YYYY-MM-DD` as the spec words it (§4.1): four
digits, a hyphen, two digits, a hyphen, two digits. -/
def specMatchesDatePattern (s : String) : Bool :=
  match s.data with
  | [y1, y2, y3, y4, h1, m1, m2, h2, d1, d2] =>
    [y1, y2, y3, y4, m1, m2, d1, d2].all Char.isDigit && h1 = '-' && h2 = '-'
  | _ => false

/-- Optional UTC-offset suffix `±HH:MM` of an ISO-8601 timestamp. -/
def isoValidOffset : List Char → Bool
  | [] => true
  | [sign, o1, o2, c, o3, o4] =>
    (sign = '+' || sign = '-') && c = ':' && [o1, o2, o3, o4].all Char.isDigit
      && digitsToNat [o1, o2] ≤ 23 && digitsToNat [o3, o4] ≤ 59
  | _ => false

/-- Time-of-day part `HH:MM:SS` (optional offset suffix) of an ISO-8601
timestamp. -/
def isoValidTime : List Char → Bool
  | h1 :: h2 :: c1 :: m1 :: m2 :: c2 :: s1 :: s2 :: rest =>
    [h1, h2, m1, m2, s1, s2].all Char.isDigit && c1 = ':' && c2 = ':'
      && digitsToNat [h1, h2] ≤ 23 && digitsToNat [m1, m2] ≤ 59
      && digitsToNat [s1, s2] ≤ 59 && isoValidOffset rest
  | _ => false

/-- After the date part: nothing, or one separator character and a time. -/
def isoValidTail : List Char → Bool
  | [] => true
  | _sep :: t => isoValidTime t

/-- `datetime.fromisoformat(s).date()` restricted to the timestamp shapes the
log format uses: `YYYY-MM-DD`, optionally followed by one separator
character, `HH:MM:SS` and an optional `±HH:MM` offset (fractional seconds
are not modelled).  The loader takes this parser as a parameter, so the
general theorems do not depend on this model; it is only instantiated to
evaluate concrete examples. -/
def pyFromisoformatDate (s : String) : Option PyDate :=
  match s.data with
  | y1 :: y2 :: y3 :: y4 :: h1 :: m1 :: m2 :: h2 :: d1 :: d2 :: rest =>
    if [y1, y2, y3, y4, m1, m2, d1, d2].all Char.isDigit ∧ h1 = '-' ∧ h2 = '-' then
      let y := digitsToNat [y1, y2, y3, y4]
      let m := digitsToNat [m1, m2]
      let d := digitsToNat [d1, d2]
      if (1 ≤ y ∧ 1 ≤ m ∧ m ≤ 12 ∧ 1 ≤ d ∧ d ≤ daysInMonth y m)
          ∧ isoValidTail rest = true then
        some ⟨y, m, d⟩
      else none
    else none
  | _ => none

/-! ## Python `str(...)` of a scalar -/

/-- Exponent of prime `p` in `n` (fuel-bounded; `fuel ≥ n` suffices). -/
def factorExp (p : Nat) : Nat → Nat → Nat
  | 0, _ => 0
  | fuel + 1, n => if n % p == 0 && 2 ≤ n then factorExp p fuel (n / p) + 1 else 0

/-- Left-pad with zeros to `k` characters. -/
def padZeros (k : Nat) (s : String) : String :=
  String.mk (List.replicate (k - s.data.length) '0' ++ s.data)

/-- Python `str(...)` on a JSON scalar, as `generate_status_report` applies it
to the `status` field.  Numbers print as Python prints them: integers without
a point, floats in decimal form (exact for values whose denominator divides a
power of ten — every JSON decimal literal; other rationals have no float
counterpart and get a fallback form). -/
def pyStr : JVal → String
  | .str s => s
  | .bool b => if b then "True" else "False"
  | .null => "None"
  | .num q =>
    if q.den = 1 then toString q.num
    else
      let k := max (factorExp 2 q.den q.den) (factorExp 5 q.den q.den)
      let scaled := q * (10 : ℚ) ^ k
      if scaled.den = 1 then
        let sign := if q.num < 0 then "-" else ""
        let m := scaled.num.natAbs
        sign ++ toString (m / 10 ^ k) ++ "." ++ padZeros k (toString (m % 10 ^ k))
      else toString q.num ++ "/" ++ toString q.den

/-! ## `defaultdict` grouping

Python 3.7+ dicts preserve insertion order: a `defaultdict` loop visits
groups in first-encounter order.  `bumpWith dflt upd k m` models
`m[k] = upd(m[k])` where a missing key first receives `dflt`. -/

/-- One `defaultdict` update, preserving insertion order. -/
def bumpWith [DecidableEq κ] (dflt : σ) (upd : σ → σ) (k : κ) :
    List (κ × σ) → List (κ × σ)
  | [] => [(k, upd dflt)]
  | (k₁, s) :: rest =>
    if k₁ = k then (k₁, upd s) :: rest else (k₁, s) :: bumpWith dflt upd k rest

/-- Association-list lookup (`k in m` / `m[k]`). -/
def assocLookup [DecidableEq κ] : List (κ × σ) → κ → Option σ
  | [], _ => none
  | (k₁, s) :: rest, k => if k₁ = k then some s else assocLookup rest k

/-- `m[k] = v` on a Python dict: overwrite in place, else append. -/
def assocSet [DecidableEq κ] (k : κ) (v : σ) : List (κ × σ) → List (κ × σ)
  | [] => [(k, v)]
  | (k₁, s) :: rest =>
    if k₁ = k then (k₁, v) :: rest else (k₁, s) :: assocSet k v rest

/-- One iteration of the generic aggregation loop shared by the three
reports: if `extract` accepts the record, bump the entry of its group key
with its payload. -/
def accStep [DecidableEq κ] (dflt : σ) (upd : π → σ → σ)
    (extract : LogRecord → Option (κ × π)) (m : List (κ × σ))
    (r : LogRecord) : List (κ × σ) :=
  match extract r with
  | some (k, x) => bumpWith dflt (upd x) k m
  | none => m

/-- The generic aggregation loop. -/
def accFold [DecidableEq κ] (dflt : σ) (upd : π → σ → σ)
    (extract : LogRecord → Option (κ × π)) (logs : List LogRecord) :
    List (κ × σ) :=
  logs.foldl (accStep dflt upd extract) []

/-- The payloads of the records of group `k`, in store order: the reference
value the reports are checked against. -/
def payloadsFor [DecidableEq κ] (extract : LogRecord → Option (κ × π))
    (logs : List LogRecord) (k : κ) : List π :=
  ((logs.filterMap extract).filter (fun p => decide (p.1 = k))).map Prod.snd

/-- Apply all payload updates in order. -/
def applyAll (upd : π → σ → σ) (ps : List π) (s : σ) : σ :=
  ps.foldl (fun s x => upd x s) s

/-- First occurrence of each key, in encounter order. -/
def dedupKeys [DecidableEq κ] (ks : List κ) : List κ :=
  ks.foldl (fun acc k => if k ∈ acc then acc else acc ++ [k]) []

/-- The group keys of a store in first-encounter order: the reference order
the report rows are checked against. -/
def firstKeys [DecidableEq κ] (extract : LogRecord → Option (κ × π))
    (logs : List LogRecord) : List κ :=
  dedupKeys ((logs.filterMap extract).map Prod.fst)

/-! ## Stable descending sort

`report_data.sort(key=..., reverse=True)` is Python's stable sort with the
comparison reversed: rows end up in non-increasing key order and rows with
equal keys keep their original (first-encounter) order.  A left fold of
ordered insertion reproduces exactly that order. -/

/-- Insert `x` before the first element whose key is strictly smaller;
elements with an equal key stay in front of `x`. -/
def insertDescBy (key : α → Nat) (x : α) : List α → List α
  | [] => [x]
  | y :: ys => if key y < key x then x :: y :: ys else y :: insertDescBy key x ys

/-- Stable sort by descending `key`: models `sort(key=..., reverse=True)`. -/
def sortDescBy (key : α → Nat) (l : List α) : List α :=
  l.foldl (fun acc x => insertDescBy key x acc) []

/-! ## The three reports (`LogProcessor.generate_*_report`) -/

/-- A row of the `average` report. -/
structure AvgRow where
  handler : JVal
  total : Nat
  avg_response_time : ℚ
deriving DecidableEq

/-- A row of the `user_agent` report. -/
structure UARow where
  browser : String
  requests : Nat
  percentage : ℚ
deriving DecidableEq

/-- A row of the `status` report. -/
structure StatusRow where
  status_code : String
  requests : Nat
  percentage : ℚ
deriving DecidableEq

/-- The per-endpoint accumulator of `generate_average_report`. -/
structure EPStat where
  total_requests : Nat
  total_response_time : ℚ
deriving DecidableEq

/-- `isinstance(v, (int, float))` together with the numeric value:
Python `bool` is a subclass of `int`, so `True`/`False` pass the check and
count as `1`/`0`; strings, `None` and absent values fail it. -/
def pyNumVal : JVal → Option ℚ
  | .num q => some q
  | .bool b => some (if b then 1 else 0)
  | _ => none

/-- The validity test of `generate_average_report` (src/main.py:94):
`if url and response_time is not None and isinstance(response_time, (int, float))`.
Returns the group key (`url`) and payload (`response_time`). -/
def avgExtract (r : LogRecord) : Option (JVal × ℚ) :=
  match recGet r "url" with
  | none => none
  | some u =>
    if u.truthy then
      match recGet r "response_time" with
      | none => none
      | some v =>
        match pyNumVal v with
        | some q => some (u, q)
        | none => none
    else none

/-- The `endpoint_stats` defaultdict after the aggregation loop. -/
def endpointStats (logs : List LogRecord) : List (JVal × EPStat) :=
  accFold ⟨0, 0⟩
    (fun q st => ⟨st.total_requests + 1, st.total_response_time + q⟩)
    avgExtract logs

/-- `LogProcessor.generate_average_report` (src/main.py:80-115) on the record
store: group valid records by `url`, emit count and 3-decimal rounded mean,
sort by descending count. -/
def generate_average_report (logs : List LogRecord) : List AvgRow :=
  sortDescBy (fun row => row.total)
    ((endpointStats logs).map (fun p =>
      { handler := p.1
        total := p.2.total_requests
        avg_response_time :=
          pyRoundTo 3
            (if 0 < p.2.total_requests then
              p.2.total_response_time / (p.2.total_requests : ℚ)
            else 0) }))

/-- The extraction step of `generate_user_agent_report`: the record
contributes when `.get('http_user_agent', '')` is truthy; its group key is
the classified browser label.  A truthy value must be a string, otherwise
`user_agent.lower()` raises (see `uaScan`). -/
def uaExtract (r : LogRecord) : Option (String × Unit) :=
  match (recGet r "http_user_agent").getD (.str "") with
  | .str s => if s != "" then some (extract_browser_from_user_agent s, ()) else none
  | _ => none

/-- A record whose `http_user_agent` is truthy but not a string: passing it to
`_extract_browser_from_user_agent` raises `AttributeError` on `.lower()`. -/
def uaFatal (r : LogRecord) : Bool :=
  match (recGet r "http_user_agent").getD (.str "") with
  | .str _ => false
  | v => v.truthy

/-- The aggregation loop of `generate_user_agent_report` (src/main.py:124-132):
the `user_agent_stats` defaultdict plus the `total_requests` counter; the
error case is the uncaught `AttributeError` of a truthy non-string value. -/
def uaScan : List LogRecord → List (String × Nat) → Nat →
    Except Unit (List (String × Nat) × Nat)
  | [], m, t => .ok (m, t)
  | r :: rs, m, t =>
    match (recGet r "http_user_agent").getD (.str "") with
    | .str s =>
      if s != "" then
        uaScan rs (bumpWith 0 (fun c => c + 1) (extract_browser_from_user_agent s) m) (t + 1)
      else uaScan rs m t
    | v => if v.truthy then .error () else uaScan rs m t

/-- `LogProcessor.generate_user_agent_report` (src/main.py:117-148). -/
def generate_user_agent_report (logs : List LogRecord) :
    Except Unit (List UARow) :=
  (uaScan logs [] 0).map (fun p =>
    sortDescBy (fun row => row.requests)
      (p.1.map (fun bc =>
        { browser := bc.1
          requests := bc.2
          percentage :=
            pyRoundTo 2
              (if 0 < p.2 then (bc.2 : ℚ) / (p.2 : ℚ) * 100 else 0) })))

/-- The extraction step of `generate_status_report`: the record contributes
when `.get('status')` is present and not `None`; the group key is
`str(status)`. -/
def statusExtract (r : LogRecord) : Option (String × Unit) :=
  match recGet r "status" with
  | none => none
  | some .null => none
  | some v => some (pyStr v, ())

/-- The aggregation loop of `generate_status_report` (src/main.py:157-164):
`status_stats` defaultdict plus the `total_requests` counter. -/
def statusScan (logs : List LogRecord) : List (String × Nat) × Nat :=
  logs.foldl (fun acc r =>
    match recGet r "status" with
    | none => acc
    | some .null => acc
    | some v => (bumpWith 0 (fun c => c + 1) (pyStr v) acc.1, acc.2 + 1))
    ([], 0)

/-- `LogProcessor.generate_status_report` (src/main.py:150-180). -/
def generate_status_report (logs : List LogRecord) : List StatusRow :=
  let p := statusScan logs
  sortDescBy (fun row => row.requests)
    (p.1.map (fun sc =>
      { status_code := sc.1
        requests := sc.2
        percentage :=
          pyRoundTo 2
            (if 0 < p.2 then (sc.2 : ℚ) / (p.2 : ℚ) * 100 else 0) }))

/-! ## The loader (`LogProcessor.load_logs`)

The file system is a finite map from path to the file's lines; a missing
path models `Path.exists()` returning false.  `json.loads` and
`datetime.fromisoformat(...).date()` are parameters (`parse`, `fromiso`):
every general theorem quantifies over them, and the concrete models above
instantiate them on examples. -/

/-- The in-memory record store of a `LogProcessor`. -/
structure LogProcessor where
  logs : List LogRecord
deriving DecidableEq

/-- File system: path to lines of the (UTF-8 text, line-split) file. -/
abbrev FileSystem := List (String × List String)

/-- `Path(file_path).exists()` and `open(...)`: the file's lines. -/
def fsLookup (fs : FileSystem) (p : String) : Option (List String) :=
  match fs.find? (fun e => e.1 == p) with
  | some e => some e.2
  | none => none

/-- The fatal errors of `load_logs` (spec §7 taxonomy):
`invalidDateFormat` is the `ValueError` for a bad `--date` (ValidationError),
`fileNotFound` is `FileNotFoundError` (NotFoundError), and `readError` is the
wrapping `Exception` raised when reading an opened file fails (ReadError). -/
inductive LoadError where
  | invalidDateFormat (s : String)
  | fileNotFound (path : String)
  | readError (path : String)
deriving DecidableEq

/-- What the per-line body of `load_logs` does with one line. -/
inductive LineStep where
  | append (r : LogRecord)
  | skip
  | fatal
deriving DecidableEq

/-- One iteration of the line loop (src/main.py:50-75): strip, skip blanks,
parse JSON (parse failure prints a diagnostic and continues), then under an
active date filter inspect `@timestamp` with default `''`: a falsy value
falls through to the append, a truthy string is parsed (`Z` replaced by
`+00:00`) and compared by calendar date — parse failure skips; a truthy
non-string reaches `.replace` and raises `AttributeError`, which the outer
`except Exception` converts into the fatal read error. -/
def processLine (parse : String → Option LogRecord)
    (fromiso : String → Option PyDate) (target : Option PyDate)
    (line : String) : LineStep :=
  let l := pyStrip line
  if l == "" then .skip
  else
    match parse l with
    | none => .skip
    | some r =>
      match target with
      | none => .append r
      | some d =>
        match (recGet r "@timestamp").getD (.str "") with
        | .str s =>
          if s != "" then
            match fromiso (pyReplaceChar s 'Z' "+00:00") with
            | some ld => if ld = d then .append r else .skip
            | none => .skip
          else .append r
        | v =>
          if v.truthy then .fatal else .append r

/-- The line loop over one file: appends surviving records to the store in
order; a fatal line stops the file and reports it (the store keeps what was
already appended, as `self.logs` does). -/
def loadLines (parse : String → Option LogRecord)
    (fromiso : String → Option PyDate) (target : Option PyDate) :
    List String → List LogRecord → List LogRecord × Bool
  | [], logs => (logs, false)
  | line :: rest, logs =>
    match processLine parse fromiso target line with
    | .append r => loadLines parse fromiso target rest (logs ++ [r])
    | .skip => loadLines parse fromiso target rest logs
    | .fatal => (logs, true)

/-- The file loop of `load_logs` (src/main.py:43-78): for each path in order,
raise `FileNotFoundError` if it does not exist (the store keeps the records
of the files already processed), otherwise run the line loop. -/
def loadFiles (parse : String → Option LogRecord)
    (fromiso : String → Option PyDate) (fs : FileSystem)
    (target : Option PyDate) :
    List String → LogProcessor → Except LoadError Unit × LogProcessor
  | [], p => (.ok (), p)
  | fp :: rest, p =>
    match fsLookup fs fp with
    | none => (.error (.fileNotFound fp), p)
    | some lines =>
      match loadLines parse fromiso target lines p.logs with
      | (logs₁, true) => (.error (.readError fp), ⟨logs₁⟩)
      | (logs₁, false) => loadFiles parse fromiso fs target rest ⟨logs₁⟩

/-- `LogProcessor.load_logs` (src/main.py:28-78).  `if date_filter:` is a
truthiness test, so `None` and the empty string both disable filtering;
a non-empty filter is validated by `strptime` before any path is touched. -/
def load_logs (parse : String → Option LogRecord)
    (fromiso : String → Option PyDate) (fs : FileSystem) (p : LogProcessor)
    (file_paths : List String) (date_filter : Option String) :
    Except LoadError Unit × LogProcessor :=
  match date_filter with
  | some s =>
    if s != "" then
      match pyStrptimeDate s with
      | none => (.error (.invalidDateFormat s), p)
      | some d => loadFiles parse fromiso fs (some d) file_paths p
    else loadFiles parse fromiso fs none file_paths p
  | none => loadFiles parse fromiso fs none file_paths p

/-! ## Processor methods (state-passing view)

The three report methods only read `self.logs` (records are accessed through
`dict.get`, the only mutated object is the local `report_data` list), so the
state-passing embedding returns the processor unchanged. -/

/-- Method view of `generate_average_report`: result plus post-state. -/
def LogProcessor.generate_average_report (p : LogProcessor) :
    List AvgRow × LogProcessor :=
  (LogFile.generate_average_report p.logs, p)

/-- Method view of `generate_user_agent_report`: result plus post-state. -/
def LogProcessor.generate_user_agent_report (p : LogProcessor) :
    Except Unit (List UARow) × LogProcessor :=
  (LogFile.generate_user_agent_report p.logs, p)

/-- Method view of `generate_status_report`: result plus post-state. -/
def LogProcessor.generate_status_report (p : LogProcessor) :
    List StatusRow × LogProcessor :=
  (LogFile.generate_status_report p.logs, p)

/-! ## The report registry (`ReportGenerator`) -/

/-- The rows a registered report produces (the three built-in shapes, plus a
free-form shape for reports added at runtime). -/
inductive ReportOutput where
  | averageRows (rows : List AvgRow)
  | userAgentRows (rows : List UARow)
  | statusRows (rows : List StatusRow)
  | customRows (rows : List (List (String × String)))

/-- One registry entry: bound aggregation method, column headers,
human-readable description. -/
structure ReportInfo where
  method : List LogRecord → Except Unit ReportOutput
  headers : List String
  description : String

/-- The errors of `ReportGenerator`: the `ValueError` for an unregistered
report name (spec: ValidationError, carrying the requested name), and the
propagated failure of a method itself. -/
inductive ReportError where
  | unsupportedReportType (name : String)
  | methodFailure
deriving DecidableEq

/-- `ReportGenerator._report_registry` as built in `__init__`
(src/main.py:228-244). -/
def default_report_registry : List (String × ReportInfo) :=
  [ ("average",
      { method := fun logs => .ok (.averageRows (generate_average_report logs))
        headers := ["handler", "total", "avg_response_time"]
        description := "Статистика по эндпоинтам с количеством запросов и средним временем ответа" }),
    ("user_agent",
      { method := fun logs => (generate_user_agent_report logs).map .userAgentRows
        headers := ["browser", "requests", "percentage"]
        description := "Статистика по браузерам пользователей" }),
    ("status",
      { method := fun logs => .ok (.statusRows (generate_status_report logs))
        headers := ["status_code", "requests", "percentage"]
        description := "Статистика по HTTP статус кодам" }) ]

/-- `ReportGenerator.get_report_headers` (src/main.py:255-268). -/
def get_report_headers (registry : List (String × ReportInfo))
    (report_type : String) : Except ReportError (List String) :=
  match assocLookup registry report_type with
  | none => .error (.unsupportedReportType report_type)
  | some info => .ok info.headers

/-- `ReportGenerator.generate_report` (src/main.py:270-284). -/
def generate_report (registry : List (String × ReportInfo))
    (logs : List LogRecord) (report_type : String) :
    Except ReportError ReportOutput :=
  match assocLookup registry report_type with
  | none => .error (.unsupportedReportType report_type)
  | some info =>
    match info.method logs with
    | .ok out => .ok out
    | .error _ => .error .methodFailure

/-- `ReportGenerator.add_report_type` (src/main.py:286-300): dict assignment,
overwriting any prior definition under the same name. -/
def add_report_type (registry : List (String × ReportInfo)) (name : String)
    (method : List LogRecord → Except Unit ReportOutput)
    (headers : List String) (description : String) :
    List (String × ReportInfo) :=
  assocSet name ⟨method, headers, description⟩ registry

/-! ## Reference formulations for the loader theorems -/

/-- What the line loop parses out of one line: nothing for a blank line,
otherwise `json.loads` of the stripped line. -/
def strippedParse (parse : String → Option LogRecord) (line : String) :
    Option LogRecord :=
  if pyStrip line == "" then none else parse (pyStrip line)

/-- The record-retention rule the code applies under an active date filter
(given that no line is fatal): a record whose `@timestamp` is absent or
falsy is RETAINED unfiltered; a truthy string timestamp is kept exactly when
it parses (after replacing `Z` with `+00:00`) and its calendar date equals
the filter date, and is skipped when it does not parse. -/
def keptUnderFilter (fromiso : String → Option PyDate) (d : PyDate)
    (r : LogRecord) : Bool :=
  match (recGet r "@timestamp").getD (.str "") with
  | .str s =>
    if s != "" then
      match fromiso (pyReplaceChar s 'Z' "+00:00") with
      | some ld => ld = d
      | none => false
    else true
  | v => !v.truthy

/-! ## Concrete example data

A small model of `json.loads` restricted to the exact lines of the example
files, a two-file file system, and the records they contain.  Only witnesses
and counterexamples use these; the general theorems quantify over the
parser, the timestamp parser and the file system. -/

/-- A log line with a `url` and no `@timestamp`. -/
def jsonLineNoTs : String := "\x7b\"url\": \"/x\"\x7d"

/-- The record `json.loads` yields for `jsonLineNoTs`. -/
def recNoTs : LogRecord := [("url", .str "/x")]

/-- A log line timestamped on 2025-06-22 (last second of the day). -/
def jsonLineTs22 : String :=
  "\x7b\"@timestamp\": \"2025-06-22T23:59:59+00:00\", \"url\": \"/a\"\x7d"

/-- The record for `jsonLineTs22`. -/
def recTs22 : LogRecord :=
  [("@timestamp", .str "2025-06-22T23:59:59+00:00"), ("url", .str "/a")]

/-- A log line timestamped on 2025-06-23 (first second of the day). -/
def jsonLineTs23 : String :=
  "\x7b\"@timestamp\": \"2025-06-23T00:00:00+00:00\", \"url\": \"/b\"\x7d"

/-- The record for `jsonLineTs23`. -/
def recTs23 : LogRecord :=
  [("@timestamp", .str "2025-06-23T00:00:00+00:00"), ("url", .str "/b")]

/-- `json.loads` on the example lines. -/
def demoParse (s : String) : Option LogRecord :=
  if s == jsonLineNoTs then some recNoTs
  else if s == jsonLineTs22 then some recTs22
  else if s == jsonLineTs23 then some recTs23
  else none

/-- Two existing files; any other path does not exist. -/
def demoFS : FileSystem :=
  [("app.log", [jsonLineNoTs]), ("ts.log", [jsonLineTs22, jsonLineTs23])]

/-- The record store of the spec's `average`-report scenario (§8):
`[{url:"/a",response_time:0.1},{url:"/a",response_time:0.2},{url:"/b",response_time:0.3}]`. -/
def demoAvgLogs : List LogRecord :=
  [ [("url", .str "/a"), ("response_time", .num (mkRat 1 10))],
    [("url", .str "/a"), ("response_time", .num (mkRat 2 10))],
    [("url", .str "/b"), ("response_time", .num (mkRat 3 10))] ]

/-- A small store exercising both percentage reports. -/
def demoPctLogs : List LogRecord :=
  [ [("http_user_agent", .str "curl/7.68.0"), ("status", .num 200)],
    [("http_user_agent", .str "curl/7.61.0"), ("status", .num 404)],
    [("http_user_agent", .str "Chrome/91.0"), ("status", .num 200)] ]

/-! # Lemmas about `defaultdict` grouping -/

section AssocLemmas

variable {κ σ : Type} [DecidableEq κ]

theorem bumpWith_keys_of_mem (dflt : σ) (u : σ → σ) {k : κ} {m : List (κ × σ)}
    (h : k ∈ m.map Prod.fst) :
    (bumpWith dflt u k m).map Prod.fst = m.map Prod.fst := by
  induction m with
  | nil => simp at h
  | cons e rest ih =>
    obtain ⟨k₁, s⟩ := e
    by_cases hk : k₁ = k
    · subst hk; simp [bumpWith]
    · have hr : k ∈ rest.map Prod.fst := by
        simp only [List.map_cons, List.mem_cons] at h
        exact h.resolve_left (fun hh => hk hh.symm)
      simp [bumpWith, hk, ih hr]

theorem bumpWith_keys_of_notMem (dflt : σ) (u : σ → σ) {k : κ}
    {m : List (κ × σ)} (h : k ∉ m.map Prod.fst) :
    (bumpWith dflt u k m).map Prod.fst = m.map Prod.fst ++ [k] := by
  induction m with
  | nil => simp [bumpWith]
  | cons e rest ih =>
    obtain ⟨k₁, s⟩ := e
    have hk : k₁ ≠ k := fun hh => h (by simp [hh])
    have hr : k ∉ rest.map Prod.fst := fun hh => h (by simp [hh])
    simp [bumpWith, hk, ih hr]

theorem bumpWith_keys_nodup (dflt : σ) (u : σ → σ) (k : κ) {m : List (κ × σ)}
    (h : (m.map Prod.fst).Nodup) :
    ((bumpWith dflt u k m).map Prod.fst).Nodup := by
  by_cases hm : k ∈ m.map Prod.fst
  · rw [bumpWith_keys_of_mem dflt u hm]; exact h
  · rw [bumpWith_keys_of_notMem dflt u hm]
    simp [List.nodup_append, h, hm]

theorem assocLookup_bumpWith_self (dflt : σ) (u : σ → σ) (k : κ)
    (m : List (κ × σ)) :
    assocLookup (bumpWith dflt u k m) k =
      some (u ((assocLookup m k).getD dflt)) := by
  induction m with
  | nil => simp [bumpWith, assocLookup]
  | cons e rest ih =>
    obtain ⟨k₁, s⟩ := e
    by_cases hk : k₁ = k
    · subst hk; simp [bumpWith, assocLookup]
    · simp [bumpWith, assocLookup, hk, ih]

theorem assocLookup_bumpWith_ne (dflt : σ) (u : σ → σ) {k k₁ : κ}
    (m : List (κ × σ)) (h : k₁ ≠ k) :
    assocLookup (bumpWith dflt u k m) k₁ = assocLookup m k₁ := by
  have hne : ¬ k = k₁ := fun hh => h hh.symm
  induction m with
  | nil => simp [bumpWith, assocLookup, hne]
  | cons e rest ih =>
    obtain ⟨k₂, s⟩ := e
    by_cases hk : k₂ = k
    · subst hk
      have hne₂ : ¬ k₂ = k₁ := hne
      simp [bumpWith, assocLookup, hne₂]
    · by_cases hk₁ : k₂ = k₁
      · subst hk₁; simp [bumpWith, assocLookup, hk]
      · simp [bumpWith, assocLookup, hk, hk₁, ih]

theorem assocLookup_eq_some_of_mem {m : List (κ × σ)} {k : κ} {s : σ}
    (hnd : (m.map Prod.fst).Nodup) (h : (k, s) ∈ m) :
    assocLookup m k = some s := by
  induction m with
  | nil => simp at h
  | cons e rest ih =>
    obtain ⟨k₁, s₁⟩ := e
    simp only [List.map_cons, List.nodup_cons] at hnd
    rcases List.mem_cons.mp h with h | h
    · injection h with h1 h2
      subst h1; subst h2; simp [assocLookup]
    · have hk : ¬ k₁ = k := by
        intro hh; subst hh
        exact hnd.1 (List.mem_map.mpr ⟨(k₁, s), h, rfl⟩)
      simp [assocLookup, hk, ih hnd.2 h]

theorem assocLookup_assocSet_self (k : κ) (v : σ) (m : List (κ × σ)) :
    assocLookup (assocSet k v m) k = some v := by
  induction m with
  | nil => simp [assocSet, assocLookup]
  | cons e rest ih =>
    obtain ⟨k₁, s⟩ := e
    by_cases hk : k₁ = k
    · subst hk; simp [assocSet, assocLookup]
    · simp [assocSet, assocLookup, hk, ih]

theorem mem_of_assocLookup_eq_some {m : List (κ × σ)} {k : κ} {s : σ}
    (h : assocLookup m k = some s) : (k, s) ∈ m := by
  induction m with
  | nil => simp [assocLookup] at h
  | cons e rest ih =>
    obtain ⟨k₁, s₁⟩ := e
    by_cases hk : k₁ = k
    · subst hk
      simp [assocLookup] at h
      simp [h]
    · simp only [assocLookup, if_neg hk] at h
      exact List.mem_cons_of_mem _ (ih h)

end AssocLemmas

/-! # Lemmas about the generic aggregation loop -/

section AccFoldLemmas

variable {κ σ π : Type} [DecidableEq κ]
variable (dflt : σ) (upd : π → σ → σ) (extract : LogRecord → Option (κ × π))

theorem applyAll_nil (s : σ) : applyAll upd [] s = s := rfl

theorem applyAll_cons (x : π) (ps : List π) (s : σ) :
    applyAll upd (x :: ps) s = applyAll upd ps (upd x s) := rfl

theorem payloadsFor_nil (k : κ) : payloadsFor extract [] k = [] := rfl

theorem accStep_none {r : LogRecord} (h : extract r = none)
    (m : List (κ × σ)) : accStep dflt upd extract m r = m := by
  unfold accStep; rw [h]

theorem accStep_some {r : LogRecord} {k : κ} {x : π}
    (h : extract r = some (k, x)) (m : List (κ × σ)) :
    accStep dflt upd extract m r = bumpWith dflt (upd x) k m := by
  unfold accStep; rw [h]

theorem payloadsFor_cons_none {r : LogRecord} (h : extract r = none)
    (logs : List LogRecord) (k : κ) :
    payloadsFor extract (r :: logs) k = payloadsFor extract logs k := by
  unfold payloadsFor
  rw [List.filterMap_cons, h]

theorem payloadsFor_cons_some_eq {r : LogRecord} {k : κ} {x : π}
    (h : extract r = some (k, x)) (logs : List LogRecord) :
    payloadsFor extract (r :: logs) k = x :: payloadsFor extract logs k := by
  unfold payloadsFor
  rw [List.filterMap_cons, h]
  simp

theorem payloadsFor_cons_some_ne {r : LogRecord} {k k' : κ} {x : π}
    (h : extract r = some (k', x)) (hk : k' ≠ k) (logs : List LogRecord) :
    payloadsFor extract (r :: logs) k = payloadsFor extract logs k := by
  unfold payloadsFor
  rw [List.filterMap_cons, h]
  simp [hk]

theorem assocLookup_foldl_accStep (logs : List LogRecord) :
    ∀ (m : List (κ × σ)) (k : κ),
      assocLookup (logs.foldl (accStep dflt upd extract) m) k =
        if (assocLookup m k).isSome || !(payloadsFor extract logs k).isEmpty
        then
          some (applyAll upd (payloadsFor extract logs k)
            ((assocLookup m k).getD dflt))
        else none := by
  induction logs with
  | nil =>
    intro m k
    cases h : assocLookup m k <;> simp [payloadsFor_nil, applyAll_nil, h]
  | cons r rs ih =>
    intro m k
    rw [List.foldl_cons, ih]
    cases he : extract r with
    | none => rw [payloadsFor_cons_none extract he, accStep_none dflt upd extract he]
    | some p =>
      obtain ⟨k', x⟩ := p
      by_cases hk : k' = k
      · subst hk
        rw [payloadsFor_cons_some_eq extract he,
          accStep_some dflt upd extract he,
          assocLookup_bumpWith_self]
        simp [applyAll_cons]
      · have hne : k ≠ k' := fun hh => hk hh.symm
        rw [payloadsFor_cons_some_ne extract he hk,
          accStep_some dflt upd extract he,
          assocLookup_bumpWith_ne dflt (upd x) m hne]

theorem keys_foldl_accStep (logs : List LogRecord) :
    ∀ m : List (κ × σ),
      (logs.foldl (accStep dflt upd extract) m).map Prod.fst =
        ((logs.filterMap extract).map Prod.fst).foldl
          (fun acc k => if k ∈ acc then acc else acc ++ [k])
          (m.map Prod.fst) := by
  induction logs with
  | nil => intro m; simp
  | cons r rs ih =>
    intro m
    rw [List.foldl_cons]
    cases he : extract r with
    | none =>
      rw [accStep_none dflt upd extract he, List.filterMap_cons, he, ih]
    | some p =>
      obtain ⟨k', x⟩ := p
      rw [accStep_some dflt upd extract he, List.filterMap_cons, he, ih]
      by_cases hm : k' ∈ m.map Prod.fst
      · rw [bumpWith_keys_of_mem dflt (upd x) hm]
        simp [hm]
      · rw [bumpWith_keys_of_notMem dflt (upd x) hm]
        simp [hm]

theorem accFold_keys (logs : List LogRecord) :
    (accFold dflt upd extract logs).map Prod.fst = firstKeys extract logs := by
  rw [accFold, keys_foldl_accStep]
  rfl

theorem keys_foldl_accStep_nodup (logs : List LogRecord) :
    ∀ m : List (κ × σ), (m.map Prod.fst).Nodup →
      ((logs.foldl (accStep dflt upd extract) m).map Prod.fst).Nodup := by
  induction logs with
  | nil => intro m h; simpa using h
  | cons r rs ih =>
    intro m h
    rw [List.foldl_cons]
    apply ih
    cases he : extract r with
    | none => rw [accStep_none dflt upd extract he]; exact h
    | some p =>
      obtain ⟨k', x⟩ := p
      rw [accStep_some dflt upd extract he]
      exact bumpWith_keys_nodup dflt (upd x) k' h

theorem accFold_keys_nodup (logs : List LogRecord) :
    ((accFold dflt upd extract logs).map Prod.fst).Nodup :=
  keys_foldl_accStep_nodup dflt upd extract logs [] (by simp)

/-- Content of one group entry: a pair in the aggregate is exactly the fold
of the updates over that group's payloads, and the group is non-empty. -/
theorem accFold_mem_content {logs : List LogRecord} {k : κ} {s : σ}
    (h : (k, s) ∈ accFold dflt upd extract logs) :
    payloadsFor extract logs k ≠ [] ∧
      s = applyAll upd (payloadsFor extract logs k) dflt := by
  have hl := assocLookup_eq_some_of_mem
    (accFold_keys_nodup dflt upd extract logs) h
  rw [accFold, assocLookup_foldl_accStep] at hl
  cases hp : payloadsFor extract logs k with
  | nil => rw [hp] at hl; simp [assocLookup] at hl
  | cons p ps =>
    rw [hp] at hl
    simp [assocLookup] at hl
    exact ⟨by simp, hl.symm⟩

theorem bumpWith_sum {M : Type} [AddCommMonoid M] (f : σ → M) (g : π → M)
    (x : π) (hupd : ∀ s, f (upd x s) = f s + g x) (hdflt : f dflt = 0)
    (k : κ) (m : List (κ × σ)) :
    ((bumpWith dflt (upd x) k m).map (fun p => f p.2)).sum =
      (m.map (fun p => f p.2)).sum + g x := by
  induction m with
  | nil => simp [bumpWith, hupd, hdflt]
  | cons e rest ih =>
    obtain ⟨k₁, s⟩ := e
    by_cases hk : k₁ = k
    · subst hk
      simp [bumpWith, hupd, add_assoc, add_comm, add_left_comm]
    · simp [bumpWith, hk, ih, add_assoc]

theorem foldl_accStep_sum {M : Type} [AddCommMonoid M] (f : σ → M)
    (g : π → M) (hupd : ∀ x s, f (upd x s) = f s + g x) (hdflt : f dflt = 0)
    (logs : List LogRecord) :
    ∀ m : List (κ × σ),
      ((logs.foldl (accStep dflt upd extract) m).map (fun p => f p.2)).sum =
        (m.map (fun p => f p.2)).sum +
          ((logs.filterMap extract).map (fun p => g p.2)).sum := by
  induction logs with
  | nil => intro m; simp
  | cons r rs ih =>
    intro m
    rw [List.foldl_cons]
    cases he : extract r with
    | none =>
      rw [accStep_none dflt upd extract he, List.filterMap_cons, he, ih]
    | some p =>
      obtain ⟨k', x⟩ := p
      rw [accStep_some dflt upd extract he, List.filterMap_cons, he, ih,
        bumpWith_sum dflt upd f g x (hupd x) hdflt]
      simp [add_assoc, add_comm, add_left_comm]

theorem foldl_accStep_of_filterMap_nil {logs : List LogRecord}
    (h : logs.filterMap extract = []) :
    ∀ m : List (κ × σ), logs.foldl (accStep dflt upd extract) m = m := by
  induction logs with
  | nil => intro m; rfl
  | cons r rs ih =>
    intro m
    cases he : extract r with
    | none =>
      rw [List.filterMap_cons, he] at h
      rw [List.foldl_cons, accStep_none dflt upd extract he]
      exact ih h m
    | some p =>
      rw [List.filterMap_cons, he] at h
      simp at h

end AccFoldLemmas

/-! # Lemmas about the stable descending sort -/

section SortLemmas

variable {α : Type} (key : α → Nat)

theorem insertDescBy_perm (x : α) (l : List α) :
    (insertDescBy key x l).Perm (x :: l) := by
  induction l with
  | nil => exact List.Perm.refl _
  | cons z zs ih =>
    by_cases h : key z < key x
    · rw [insertDescBy, if_pos h]
    · rw [insertDescBy, if_neg h]
      exact (ih.cons z).trans (List.Perm.swap x z zs)

theorem foldl_insertDescBy_perm (l : List α) :
    ∀ acc : List α,
      (l.foldl (fun acc x => insertDescBy key x acc) acc).Perm (acc ++ l) := by
  induction l with
  | nil => intro acc; simp
  | cons x xs ih =>
    intro acc
    rw [List.foldl_cons]
    exact ((ih _).trans
      (((insertDescBy_perm key x acc).append_right xs).trans
        List.perm_middle.symm))

theorem sortDescBy_perm (l : List α) : (sortDescBy key l).Perm l := by
  simpa using foldl_insertDescBy_perm key l []

theorem insertDescBy_sorted (x : α) {l : List α}
    (h : l.Pairwise (fun a b => key b ≤ key a)) :
    (insertDescBy key x l).Pairwise (fun a b => key b ≤ key a) := by
  induction l with
  | nil => simp [insertDescBy]
  | cons z zs ih =>
    rcases List.pairwise_cons.mp h with ⟨hz, hzs⟩
    by_cases hlt : key z < key x
    · rw [insertDescBy, if_pos hlt]
      refine List.pairwise_cons.mpr ⟨?_, h⟩
      intro y hy
      rcases List.mem_cons.mp hy with rfl | hy
      · exact Nat.le_of_lt hlt
      · exact Nat.le_trans (hz y hy) (Nat.le_of_lt hlt)
    · rw [insertDescBy, if_neg hlt]
      refine List.pairwise_cons.mpr ⟨?_, ih hzs⟩
      intro y hy
      rcases List.mem_cons.mp ((insertDescBy_perm key x zs).mem_iff.mp hy)
        with rfl | hy
      · exact Nat.le_of_not_lt hlt
      · exact hz y hy

theorem foldl_insertDescBy_sorted (l : List α) :
    ∀ acc : List α, acc.Pairwise (fun a b => key b ≤ key a) →
      (l.foldl (fun acc x => insertDescBy key x acc) acc).Pairwise
        (fun a b => key b ≤ key a) := by
  induction l with
  | nil => intro acc h; simpa using h
  | cons x xs ih =>
    intro acc h
    rw [List.foldl_cons]
    exact ih _ (insertDescBy_sorted key x h)

theorem sortDescBy_sorted (l : List α) :
    (sortDescBy key l).Pairwise (fun a b => key b ≤ key a) :=
  foldl_insertDescBy_sorted key l [] (by simp)

theorem filter_insertDescBy (c : Nat) (x : α) {l : List α}
    (h : l.Pairwise (fun a b => key b ≤ key a)) :
    (insertDescBy key x l).filter (fun a => key a == c) =
      if key x == c then l.filter (fun a => key a == c) ++ [x]
      else l.filter (fun a => key a == c) := by
  induction l with
  | nil =>
    by_cases hc : key x == c <;> simp [insertDescBy, List.filter_cons, hc]
  | cons z zs ih =>
    rcases List.pairwise_cons.mp h with ⟨hz, hzs⟩
    by_cases hlt : key z < key x
    · rw [insertDescBy, if_pos hlt]
      by_cases hc : key x == c
      · have hcn : key x = c := by simpa using hc
        have hnil : (z :: zs).filter (fun a => key a == c) = [] := by
          rw [List.filter_eq_nil_iff]
          intro a ha
          rcases List.mem_cons.mp ha with rfl | ha
          · simpa using Nat.ne_of_lt (hcn ▸ hlt)
          · have : key a < c := Nat.lt_of_le_of_lt (hz a ha) (hcn ▸ hlt)
            simpa using Nat.ne_of_lt this
        simp [List.filter_cons, hc, hnil]
      · simp [List.filter_cons, hc]
    · rw [insertDescBy, if_neg hlt]
      rw [List.filter_cons, ih hzs]
      by_cases hc : key x == c <;> by_cases hzc : key z == c <;>
        simp [List.filter_cons, hc, hzc]

theorem filter_foldl_insertDescBy (c : Nat) (l : List α) :
    ∀ acc : List α, acc.Pairwise (fun a b => key b ≤ key a) →
      (l.foldl (fun acc x => insertDescBy key x acc) acc).filter
          (fun a => key a == c) =
        acc.filter (fun a => key a == c) ++ l.filter (fun a => key a == c) := by
  induction l with
  | nil => intro acc h; simp
  | cons x xs ih =>
    intro acc h
    rw [List.foldl_cons, ih _ (insertDescBy_sorted key x h),
      filter_insertDescBy key c x h]
    by_cases hc : key x == c <;> simp [List.filter_cons, hc]

/-- Stability of the sort: rows with one given key value keep their relative
order (they come out exactly as the filter of the input). -/
theorem filter_sortDescBy (c : Nat) (l : List α) :
    (sortDescBy key l).filter (fun a => key a == c) =
      l.filter (fun a => key a == c) := by
  simpa using filter_foldl_insertDescBy key c l [] (by simp)

end SortLemmas

/-! # Lemmas about rounding -/

theorem ratFloor_eq_floor (q : ℚ) : ratFloor q = ⌊q⌋ := by
  rw [ratFloor, Int.fdiv_eq_ediv _ (Int.ofNat_nonneg q.den), Rat.floor_def]

/-- Half-to-even rounding moves a value by at most one half. -/
theorem abs_roundHalfEven_sub_le (q : ℚ) :
    |(roundHalfEven q : ℚ) - q| ≤ 1 / 2 := by
  have hfl : ((⌊q⌋ : ℤ) : ℚ) ≤ q := Int.floor_le q
  have hfu : q < (⌊q⌋ : ℚ) + 1 := Int.lt_floor_add_one q
  rw [roundHalfEven, ratFloor_eq_floor]
  by_cases h1 : q - (⌊q⌋ : ℚ) < 1 / 2
  · rw [if_pos h1, abs_le]
    constructor <;> linarith
  · rw [if_neg h1]
    by_cases h2 : 1 / 2 < q - (⌊q⌋ : ℚ)
    · rw [if_pos h2, abs_le]
      push_cast
      constructor <;> linarith
    · rw [if_neg h2]
      have heq : q - (⌊q⌋ : ℚ) = 1 / 2 := le_antisymm (not_lt.mp h2) (not_lt.mp h1)
      by_cases h3 : ⌊q⌋ % 2 = 0
      · rw [if_pos h3, abs_le]
        constructor <;> linarith
      · rw [if_neg h3, abs_le]
        push_cast
        constructor <;> linarith

/-- `round(x, n)` moves a value by at most half of the last kept decimal. -/
theorem abs_pyRoundTo_sub_le (n : Nat) (q : ℚ) :
    |pyRoundTo n q - q| ≤ 1 / (2 * 10 ^ n) := by
  have hp : (0 : ℚ) < 10 ^ n := by positivity
  have h := abs_roundHalfEven_sub_le (q * (10 : ℚ) ^ n)
  have hrw : pyRoundTo n q - q =
      ((roundHalfEven (q * (10 : ℚ) ^ n) : ℚ) - q * (10 : ℚ) ^ n) / 10 ^ n := by
    rw [pyRoundTo]
    field_simp
    ring
  rw [hrw, abs_div, abs_of_pos hp, div_le_iff₀ hp]
  calc |(roundHalfEven (q * (10 : ℚ) ^ n) : ℚ) - q * (10 : ℚ) ^ n| ≤ 1 / 2 := h
    _ = 1 / (2 * 10 ^ n) * 10 ^ n := by field_simp

/-! # Lemmas about the browser classifier -/

/-- The source's if-chain equals first-match lookup in the spec's rule
table. -/
theorem browserChain_eq_find (l : String) :
    (if pyContains l "edg/" then "Edge"
     else if pyContains l "firefox" then "Firefox"
     else if pyContains l "chrome" then "Chrome"
     else if (pyContains l "safari" && !pyContains l "chrome") then "Safari"
     else if (pyContains l "opera" || pyContains l "opr/") then "Opera"
     else if (pyContains l "trident" || pyContains l "msie") then "Internet Explorer"
     else if pyContains l "curl" then "curl"
     else if pyContains l "wget" then "wget"
     else if pyContains l "python" then "Python"
     else if (pyContains l "bot" || pyContains l "crawler") then "Bot/Crawler"
     else "Other")
    = (match specBrowserRules.find? (fun rule => rule.1 l) with
       | some rule => rule.2
       | none => "Other") := by
  rw [specBrowserRules]
  cases h1 : pyContains l "edg/" with
  | true =>
    simp [List.find?_cons, h1]
  | false =>
    cases h2 : pyContains l "firefox" with
    | true =>
      simp [List.find?_cons, h1, h2]
    | false =>
      cases h3 : pyContains l "chrome" with
      | true =>
        simp [List.find?_cons, h1, h2, h3]
      | false =>
        cases h4 : pyContains l "safari" with
        | true =>
          simp [List.find?_cons, h1, h2, h3, h4]
        | false =>
          cases h5 : pyContains l "opera" with
          | true =>
            simp [List.find?_cons, h1, h2, h3, h4, h5]
          | false =>
            cases h6 : pyContains l "opr/" with
            | true =>
              simp [List.find?_cons, h1, h2, h3, h4, h5, h6]
            | false =>
              cases h7 : pyContains l "trident" with
              | true =>
                simp [List.find?_cons, h1, h2, h3, h4, h5, h6, h7]
              | false =>
                cases h8 : pyContains l "msie" with
                | true =>
                  simp [List.find?_cons, h1, h2, h3, h4, h5, h6, h7, h8]
                | false =>
                  cases h9 : pyContains l "curl" with
                  | true =>
                    simp [List.find?_cons, h1, h2, h3, h4, h5, h6, h7, h8, h9]
                  | false =>
                    cases h10 : pyContains l "wget" with
                    | true =>
                      simp [List.find?_cons, h1, h2, h3, h4, h5, h6, h7, h8,
                        h9, h10]
                    | false =>
                      cases h11 : pyContains l "python" with
                      | true =>
                        simp [List.find?_cons, h1, h2, h3, h4, h5, h6, h7, h8,
                          h9, h10, h11]
                      | false =>
                        cases h12 : pyContains l "bot" with
                        | true =>
                          simp [List.find?_cons, h1, h2, h3, h4, h5, h6, h7,
                            h8, h9, h10, h11, h12]
                        | false =>
                          cases h13 : pyContains l "crawler" with
                          | true =>
                            simp [List.find?_cons, h1, h2, h3, h4, h5, h6, h7,
                              h8, h9, h10, h11, h12, h13]
                          | false =>
                            simp [List.find?_cons, h1, h2, h3, h4, h5, h6, h7,
                              h8, h9, h10, h11, h12, h13]

/-! # Lemmas about the loader -/

/-- `processLine` under an active filter, phrased through `strippedParse`
and `keptUnderFilter`. -/
theorem processLine_eq (parse : String → Option LogRecord)
    (fromiso : String → Option PyDate) (d : PyDate) (line : String) :
    processLine parse fromiso (some d) line =
      match strippedParse parse line with
      | none => .skip
      | some r =>
        match (recGet r "@timestamp").getD (.str "") with
        | .str s =>
          if s != "" then
            match fromiso (pyReplaceChar s 'Z' "+00:00") with
            | some ld => if ld = d then .append r else .skip
            | none => .skip
          else .append r
        | v => if v.truthy then .fatal else .append r := by
  unfold processLine strippedParse
  by_cases hse : (pyStrip line == "") = true
  · simp [hse]
  · simp [hse]

/-- The line loop under an active filter appends exactly the records
`keptUnderFilter` keeps, in order, when no line is fatal. -/
theorem loadLines_filter_eq (parse : String → Option LogRecord)
    (fromiso : String → Option PyDate) (d : PyDate) :
    ∀ (lines : List String) (logs₀ : List LogRecord),
      (∀ line ∈ lines, processLine parse fromiso (some d) line ≠ .fatal) →
      loadLines parse fromiso (some d) lines logs₀ =
        (logs₀ ++ ((lines.filterMap (strippedParse parse)).filter
          (keptUnderFilter fromiso d)), false) := by
  intro lines
  induction lines with
  | nil => intro logs₀ _; simp [loadLines]
  | cons line rest ih =>
    intro logs₀ h
    have hline := h line (List.mem_cons_self _ _)
    have hrest : ∀ l ∈ rest, processLine parse fromiso (some d) l ≠ .fatal :=
      fun l hl => h l (List.mem_cons_of_mem _ hl)
    rw [processLine_eq] at hline
    simp only [loadLines, processLine_eq, List.filterMap_cons]
    cases hsp : strippedParse parse line with
    | none => simp [hsp, ih logs₀ hrest]
    | some r =>
      simp only [hsp] at hline
      cases htv : (recGet r "@timestamp").getD (.str "") with
      | str s =>
        by_cases hs : (s != "") = true
        · cases hiso : fromiso (pyReplaceChar s 'Z' "+00:00") with
          | some ld =>
            by_cases hld : ld = d
            · subst hld
              simp [hsp, htv, hs, hiso, keptUnderFilter, ih _ hrest]
            · simp [hsp, htv, hs, hiso, hld, keptUnderFilter, ih _ hrest]
          | none =>
            simp [hsp, htv, hs, hiso, keptUnderFilter, ih _ hrest]
        · simp [hsp, htv, hs, keptUnderFilter, ih _ hrest]
      | num q =>
        by_cases ht : (JVal.num q).truthy = true
        · simp [htv, ht] at hline
        · simp [hsp, htv, ht, keptUnderFilter, ih _ hrest]
      | bool b =>
        by_cases ht : (JVal.bool b).truthy = true
        · simp [htv, ht] at hline
        · simp [hsp, htv, ht, keptUnderFilter, ih _ hrest]
      | null =>
        simp [hsp, htv, keptUnderFilter, JVal.truthy, ih _ hrest]

/-- Appending a missing path (and anything after it) to a path list whose
load succeeded turns the result into `fileNotFound` while the store keeps
exactly the records the successful prefix had loaded. -/
theorem loadFiles_append_fileNotFound (parse : String → Option LogRecord)
    (fromiso : String → Option PyDate) (fs : FileSystem)
    (target : Option PyDate) :
    ∀ (paths₁ : List String) (p q : LogProcessor),
      loadFiles parse fromiso fs target paths₁ p = (.ok (), q) →
      ∀ {fp : String}, fsLookup fs fp = none → ∀ (paths₂ : List String),
        loadFiles parse fromiso fs target (paths₁ ++ fp :: paths₂) p =
          (.error (.fileNotFound fp), q) := by
  intro paths₁
  induction paths₁ with
  | nil =>
    intro p q h fp hfp paths₂
    simp only [loadFiles] at h
    obtain ⟨-, hq⟩ := Prod.mk.injEq .. ▸ h
    simp [loadFiles, hfp, hq]
  | cons fp₁ rest ih =>
    intro p q h fp hfp paths₂
    cases hl : fsLookup fs fp₁ with
    | none => simp [loadFiles, hl] at h
    | some lines =>
      cases hll : loadLines parse fromiso target lines p.logs with
      | mk logs₁ fatal =>
        cases fatal with
        | true => simp [loadFiles, hl, hll] at h
        | false =>
          simp only [loadFiles, hl, hll] at h
          simp only [List.cons_append, loadFiles, hl, hll]
          exact ih ⟨logs₁⟩ q h hfp paths₂

/-! # Lemmas about the three reports -/

theorem length_filterMap_eq {α β : Type} (f : α → Option β) (l : List α) :
    (l.filterMap f).length = (l.filter (fun a => (f a).isSome)).length := by
  induction l with
  | nil => rfl
  | cons a rest ih =>
    cases hf : f a <;>
      simp [List.filterMap_cons, List.filter_cons, hf, ih]

theorem sum_map_one {α : Type} (l : List α) :
    (l.map (fun _ => (1 : ℕ))).sum = l.length := by
  induction l with
  | nil => rfl
  | cons a rest ih => simp [ih, Nat.add_comm]

/-- The `average` accumulator over a payload list is its length and sum. -/
theorem applyAll_epstat (ps : List ℚ) :
    ∀ (a : ℕ) (b : ℚ),
      applyAll
        (fun q st =>
          (⟨st.total_requests + 1, st.total_response_time + q⟩ : EPStat))
        ps ⟨a, b⟩
        = ⟨a + ps.length, b + ps.sum⟩ := by
  induction ps with
  | nil => intro a b; simp [applyAll_nil]
  | cons q ps ih =>
    intro a b
    rw [applyAll_cons, ih]
    refine congrArg₂ _ ?_ ?_ <;> simp <;> ring

/-- The counting accumulator over a payload list adds its length. -/
theorem applyAll_count (ps : List Unit) :
    ∀ c : ℕ, applyAll (fun _ c => c + 1) ps c = c + ps.length := by
  induction ps with
  | nil => intro c; simp [applyAll_nil]
  | cons u ps ih =>
    intro c
    rw [applyAll_cons, ih]
    simp
    omega

/-- A sum of pointwise-perturbed values stays within `length * ε` of the
original sum. -/
theorem abs_sum_sub_sum_le {α : Type} (f g : α → ℚ) (ε : ℚ) :
    ∀ l : List α, (∀ a ∈ l, |f a - g a| ≤ ε) →
      |(l.map f).sum - (l.map g).sum| ≤ (l.length : ℚ) * ε := by
  intro l
  induction l with
  | nil => intro _; simp
  | cons a rest ih =>
    intro h
    have ha := h a (List.mem_cons_self _ _)
    have hrest := ih fun x hx => h x (List.mem_cons_of_mem _ hx)
    simp only [List.map_cons, List.sum_cons, List.length_cons]
    have key : f a + (rest.map f).sum - (g a + (rest.map g).sum)
        = (f a - g a) + ((rest.map f).sum - (rest.map g).sum) := by ring
    rw [key]
    calc |(f a - g a) + ((rest.map f).sum - (rest.map g).sum)|
        ≤ |f a - g a| + |(rest.map f).sum - (rest.map g).sum| := abs_add _ _
      _ ≤ ε + (rest.length : ℚ) * ε := add_le_add ha hrest
      _ = ((rest.length : ℚ) + 1) * ε := by ring
      _ = ((rest.length + 1 : ℕ) : ℚ) * ε := by push_cast; ring

theorem sum_map_div_mul {α : Type} (h : α → ℚ) (t : ℚ) (l : List α) :
    (l.map (fun a => h a / t * 100)).sum = (l.map h).sum / t * 100 := by
  induction l with
  | nil => simp
  | cons a rest ih =>
    simp only [List.map_cons, List.sum_cons, ih]
    ring

/-- A successful `uaScan` run is the generic aggregation plus the counter of
contributing records. -/
theorem uaScan_eq_ok (logs : List LogRecord) :
    ∀ (m : List (String × Nat)) (t : Nat)
      (res : List (String × Nat) × Nat),
      uaScan logs m t = .ok res →
      res = (logs.foldl (accStep 0 (fun _ c => c + 1) uaExtract) m,
             t + (logs.filterMap uaExtract).length) := by
  induction logs with
  | nil =>
    intro m t res h
    simp only [uaScan, Except.ok.injEq] at h
    simp [← h]
  | cons r rs ih =>
    intro m t res h
    cases htv : (recGet r "http_user_agent").getD (.str "") with
    | str s =>
      by_cases hs : (s != "") = true
      · have he : uaExtract r = some (extract_browser_from_user_agent s, ()) := by
          simp [uaExtract, htv, hs]
        rw [uaScan, htv] at h
        simp only [hs, if_pos] at h
        have := ih _ _ _ h
        rw [List.foldl_cons, accStep_some _ _ _ he,
          List.filterMap_cons, he, this]
        refine congrArg _ ?_
        simp [List.length_cons]
        omega
      · have he : uaExtract r = none := by simp [uaExtract, htv, hs]
        rw [uaScan, htv] at h
        simp only [hs, Bool.false_eq_true, if_false] at h
        have := ih _ _ _ h
        rw [List.foldl_cons, accStep_none _ _ _ he,
          List.filterMap_cons, he, this]
    | num q =>
      have he : uaExtract r = none := by simp [uaExtract, htv]
      rw [uaScan, htv] at h
      by_cases ht : (JVal.num q).truthy = true
      · simp [ht] at h
      · simp only [ht, Bool.false_eq_true, if_false] at h
        have := ih _ _ _ h
        rw [List.foldl_cons, accStep_none _ _ _ he,
          List.filterMap_cons, he, this]
    | bool b =>
      have he : uaExtract r = none := by simp [uaExtract, htv]
      rw [uaScan, htv] at h
      by_cases ht : (JVal.bool b).truthy = true
      · simp [ht] at h
      · simp only [ht, Bool.false_eq_true, if_false] at h
        have := ih _ _ _ h
        rw [List.foldl_cons, accStep_none _ _ _ he,
          List.filterMap_cons, he, this]
    | null =>
      have he : uaExtract r = none := by simp [uaExtract, htv]
      rw [uaScan, htv] at h
      simp only [JVal.truthy, Bool.false_eq_true, if_false] at h
      have := ih _ _ _ h
      rw [List.foldl_cons, accStep_none _ _ _ he,
        List.filterMap_cons, he, this]

/-- `statusScan` is the generic aggregation plus the counter of records with
a present non-null status. -/
theorem statusScan_eq (logs : List LogRecord) :
    statusScan logs
      = (accFold 0 (fun _ c => c + 1) statusExtract logs,
         (logs.filterMap statusExtract).length) := by
  rw [statusScan, accFold]
  suffices haux : ∀ (m : List (String × Nat)) (t : Nat),
      logs.foldl (fun acc r =>
        match recGet r "status" with
        | none => acc
        | some .null => acc
        | some v => (bumpWith 0 (fun c => c + 1) (pyStr v) acc.1, acc.2 + 1))
        (m, t)
      = (logs.foldl (accStep 0 (fun _ c => c + 1) statusExtract) m,
         t + (logs.filterMap statusExtract).length) by
    simpa using haux [] 0
  induction logs with
  | nil => intro m t; simp
  | cons r rs ih =>
    intro m t
    cases hv : recGet r "status" with
    | none =>
      have he : statusExtract r = none := by simp [statusExtract, hv]
      simp only [List.foldl_cons, hv]
      rw [ih, accStep_none _ _ _ he, List.filterMap_cons, he]
    | some v =>
      cases v with
      | null =>
        have he : statusExtract r = none := by simp [statusExtract, hv]
        simp only [List.foldl_cons, hv]
        rw [ih, accStep_none _ _ _ he, List.filterMap_cons, he]
      | str s =>
        have he : statusExtract r = some (pyStr (.str s), ()) := by
          simp [statusExtract, hv]
        simp only [List.foldl_cons, hv]
        rw [ih, accStep_some _ _ _ he, List.filterMap_cons, he]
        refine congrArg _ ?_
        simp
        omega
      | num q =>
        have he : statusExtract r = some (pyStr (.num q), ()) := by
          simp [statusExtract, hv]
        simp only [List.foldl_cons, hv]
        rw [ih, accStep_some _ _ _ he, List.filterMap_cons, he]
        refine congrArg _ ?_
        simp
        omega
      | bool b =>
        have he : statusExtract r = some (pyStr (.bool b), ()) := by
          simp [statusExtract, hv]
        simp only [List.foldl_cons, hv]
        rw [ih, accStep_some _ _ _ he, List.filterMap_cons, he]
        refine congrArg _ ?_
        simp
        omega

/-- Content of one entry of `endpoint_stats`: count and running sum of that
endpoint's payloads. -/
theorem endpointStats_mem {logs : List LogRecord} {k : JVal} {st : EPStat}
    (h : (k, st) ∈ endpointStats logs) :
    payloadsFor avgExtract logs k ≠ []
    ∧ st.total_requests = (payloadsFor avgExtract logs k).length
    ∧ st.total_response_time = (payloadsFor avgExtract logs k).sum := by
  rw [endpointStats] at h
  obtain ⟨hne, hst⟩ := accFold_mem_content _ _ _ h
  rw [applyAll_epstat] at hst
  simp only [Nat.zero_add, zero_add] at hst
  exact ⟨hne, by rw [hst], by rw [hst]⟩

/-- Content of one entry of a counting aggregate: the group size. -/
theorem countStats_mem {extract : LogRecord → Option (String × Unit)}
    {logs : List LogRecord} {k : String} {c : ℕ}
    (h : (k, c) ∈ accFold 0 (fun _ c => c + 1) extract logs) :
    payloadsFor extract logs k ≠ []
    ∧ c = (payloadsFor extract logs k).length := by
  obtain ⟨hne, hst⟩ := accFold_mem_content _ _ _ h
  rw [applyAll_count] at hst
  exact ⟨hne, by omega⟩

/-- The counts of a counting aggregate sum to the number of contributing
records. -/
theorem sum_countStats (extract : LogRecord → Option (String × Unit))
    (logs : List LogRecord) :
    ((accFold 0 (fun _ c => c + 1) extract logs).map
        (fun p => p.2)).sum
      = (logs.filterMap extract).length := by
  rw [accFold]
  have h := foldl_accStep_sum 0 (fun (_ : Unit) c => c + 1) extract
    (fun c => c) (fun _ => (1 : ℕ)) (fun _ _ => rfl) rfl logs []
  simpa [sum_map_one] using h

/-- The `total` fields of `endpoint_stats` sum to the number of records the
validity test accepts. -/
theorem sum_endpointStats (logs : List LogRecord) :
    ((endpointStats logs).map (fun p => p.2.total_requests)).sum
      = (logs.filterMap avgExtract).length := by
  rw [endpointStats, accFold]
  have h := foldl_accStep_sum (⟨0, 0⟩ : EPStat)
    (fun q st =>
      (⟨st.total_requests + 1, st.total_response_time + q⟩ : EPStat))
    avgExtract (fun st => st.total_requests) (fun _ => (1 : ℕ))
    (fun _ _ => rfl) rfl logs []
  simpa [sum_map_one] using h

/-- Rows built from a grouping aggregate, sorted by the stable descending
sort, are non-increasing in their count field, and the rows of any one
count value list exactly the group keys of that size in aggregate
(first-encounter) order. -/
theorem sorted_and_stable_of_stats {κ σ ρ : Type} [DecidableEq κ]
    (stats : List (κ × σ)) (rowOf : κ × σ → ρ) (key : ρ → ℕ) (lbl : ρ → κ)
    (cnt : κ → ℕ) (hkey : ∀ p ∈ stats, key (rowOf p) = cnt p.1)
    (hlbl : ∀ p, lbl (rowOf p) = p.1) :
    (sortDescBy key (stats.map rowOf)).Pairwise (fun a b => key b ≤ key a)
    ∧ ∀ c : ℕ,
      ((sortDescBy key (stats.map rowOf)).filter
          (fun a => key a == c)).map lbl
        = (stats.map Prod.fst).filter (fun u => cnt u == c) := by
  refine ⟨sortDescBy_sorted key _, fun c => ?_⟩
  rw [filter_sortDescBy, List.filter_map, List.map_map]
  have hfil : stats.filter ((fun a => key a == c) ∘ rowOf)
      = stats.filter (fun p => cnt p.1 == c) :=
    List.filter_congr (fun p hp => by simp [Function.comp, hkey p hp])
  rw [hfil]
  have hmap : (stats.filter (fun p => cnt p.1 == c)).map (lbl ∘ rowOf)
      = (stats.filter (fun p => cnt p.1 == c)).map Prod.fst :=
    List.map_congr_left (fun p _ => by simp [Function.comp, hlbl p])
  rw [hmap, List.filter_map]
  rfl

theorem sum_map_natcast (l : List (String × ℕ)) :
    (l.map (fun p => ((p.2 : ℕ) : ℚ))).sum
      = (((l.map (fun p => p.2)).sum : ℕ) : ℚ) := by
  induction l with
  | nil => simp
  | cons a rest ih => simp [ih]

theorem sum_pct_exact (l : List (String × ℕ)) (t : ℚ) (ht : t ≠ 0)
    (hsum : (((l.map (fun p => p.2)).sum : ℕ) : ℚ) = t) :
    (l.map (fun p => ((p.2 : ℕ) : ℚ) / t * 100)).sum = 100 := by
  rw [sum_map_div_mul, sum_map_natcast, hsum]
  field_simp

/-- Percentage reports: the counts sum to the number of contributing
records, and the rounded percentages sum to 100 within the accumulated
rounding tolerance (half of the last kept decimal per row). -/
theorem pct_report_sums {ρ : Type}
    (extract : LogRecord → Option (String × Unit)) (logs : List LogRecord)
    (rowOf : String × ℕ → ρ) (keyReq : ρ → ℕ) (pct : ρ → ℚ)
    (hreq : ∀ p, keyReq (rowOf p) = p.2)
    (hpct : ∀ p, pct (rowOf p)
      = pyRoundTo 2
          (if 0 < (logs.filterMap extract).length then
            ((p.2 : ℕ) : ℚ) / ((logs.filterMap extract).length : ℚ) * 100
          else 0))
    (rows : List ρ)
    (hrows : rows
      = sortDescBy keyReq
          ((accFold 0 (fun _ c => c + 1) extract logs).map rowOf))
    (hne : rows ≠ []) :
    (rows.map keyReq).sum = (logs.filter (fun r => (extract r).isSome)).length
    ∧ |(rows.map pct).sum - 100| ≤ (rows.length : ℚ) / 200 := by
  have hperm : rows.Perm
      ((accFold 0 (fun _ c => c + 1) extract logs).map rowOf) := by
    rw [hrows]; exact sortDescBy_perm _ _
  have hlen : rows.length
      = (accFold 0 (fun _ c => c + 1) extract logs).length := by
    rw [hperm.length_eq, List.length_map]
  have hsumreq : (rows.map keyReq).sum
      = (logs.filter (fun r => (extract r).isSome)).length := by
    rw [(hperm.map keyReq).sum_eq, List.map_map]
    have : ((accFold 0 (fun _ c => c + 1) extract logs).map
        (keyReq ∘ rowOf)).sum
        = ((accFold 0 (fun _ c => c + 1) extract logs).map
            (fun p => p.2)).sum := by
      refine congrArg _ (List.map_congr_left fun p _ => ?_)
      simp [Function.comp, hreq p]
    rw [this, sum_countStats, length_filterMap_eq]
  have ht : 0 < (logs.filterMap extract).length := by
    rcases Nat.eq_zero_or_pos (logs.filterMap extract).length with h0 | h
    · exfalso
      have hnil : logs.filterMap extract = [] := List.length_eq_zero.mp h0
      have : accFold 0 (fun _ c => c + 1) extract logs = [] :=
        foldl_accStep_of_filterMap_nil 0 (fun _ c => c + 1) extract hnil []
      rw [hrows, this] at hne
      simp [sortDescBy] at hne
    · exact h
  refine ⟨hsumreq, ?_⟩
  have htq : ((logs.filterMap extract).length : ℚ) ≠ 0 := by
    exact_mod_cast Nat.pos_iff_ne_zero.mp ht
  have hmappct : (rows.map pct).sum
      = ((accFold 0 (fun _ c => c + 1) extract logs).map
          (fun p => pyRoundTo 2
            (((p.2 : ℕ) : ℚ) / ((logs.filterMap extract).length : ℚ) * 100))).sum := by
    rw [(hperm.map pct).sum_eq, List.map_map]
    have hcg : ((accFold 0 (fun _ c => c + 1) extract logs).map
        (pct ∘ rowOf))
        = ((accFold 0 (fun _ c => c + 1) extract logs).map
            (fun p => pyRoundTo 2
              (((p.2 : ℕ) : ℚ) / ((logs.filterMap extract).length : ℚ) * 100))) := by
      apply List.map_congr_left
      intro p _
      simp [Function.comp, hpct p, if_pos ht]
    rw [hcg]
  have hg : ((accFold 0 (fun _ c => c + 1) extract logs).map
      (fun p => ((p.2 : ℕ) : ℚ) / ((logs.filterMap extract).length : ℚ) * 100)).sum
      = 100 := by
    refine sum_pct_exact _ _ htq ?_
    rw [sum_countStats]
  have hdiff := abs_sum_sub_sum_le
    (fun p => pyRoundTo 2
      (((p.2 : ℕ) : ℚ) / ((logs.filterMap extract).length : ℚ) * 100))
    (fun p => ((p.2 : ℕ) : ℚ) / ((logs.filterMap extract).length : ℚ) * 100)
    (1 / 200)
    (accFold 0 (fun _ c => c + 1) extract logs)
    (fun p _ => by
      have h := abs_pyRoundTo_sub_le 2
        (((p.2 : ℕ) : ℚ) / ((logs.filterMap extract).length : ℚ) * 100)
      norm_num at h ⊢
      exact h)
  rw [hmappct]
  calc |((accFold 0 (fun _ c => c + 1) extract logs).map
        (fun p => pyRoundTo 2
          (((p.2 : ℕ) : ℚ) / ((logs.filterMap extract).length : ℚ) * 100))).sum
        - 100|
      = |((accFold 0 (fun _ c => c + 1) extract logs).map
          (fun p => pyRoundTo 2
            (((p.2 : ℕ) : ℚ) / ((logs.filterMap extract).length : ℚ) * 100))).sum
        - ((accFold 0 (fun _ c => c + 1) extract logs).map
          (fun p => ((p.2 : ℕ) : ℚ) / ((logs.filterMap extract).length : ℚ)
            * 100)).sum| := by rw [hg]
    _ ≤ ((accFold 0 (fun _ c => c + 1) extract logs).length : ℚ)
        * (1 / 200) := hdiff
    _ = (rows.length : ℚ) / 200 := by rw [hlen]; ring

/-! # Claim theorems -/

/-- C1 (amended): when a listed path does not exist, `load_logs` raises
`NotFoundError` for the first missing path, the files after it are not
touched, and the Record Store retains exactly the records already loaded
from the files preceding the missing path (the load is NOT atomic: records
from earlier listed files stay in the store). -/
theorem spec_c1 (parse : String → Option LogRecord)
    (fromiso : String → Option PyDate) (fs : FileSystem) (p : LogProcessor)
    (paths₁ : List String) (fp : String) (paths₂ : List String)
    (date_filter : Option String) (q : LogProcessor)
    (hok : load_logs parse fromiso fs p paths₁ date_filter = (.ok (), q))
    (hmissing : fsLookup fs fp = none) :
    load_logs parse fromiso fs p (paths₁ ++ fp :: paths₂) date_filter =
      (.error (.fileNotFound fp), q) := by
  cases date_filter with
  | none =>
    rw [load_logs] at hok ⊢
    exact loadFiles_append_fileNotFound parse fromiso fs none paths₁ p q hok
      hmissing paths₂
  | some s =>
    by_cases hs : (s != "") = true
    · cases hd : pyStrptimeDate s with
      | none => simp [load_logs, hs, hd] at hok
      | some d =>
        simp only [load_logs, hs, hd, if_pos] at hok ⊢
        exact loadFiles_append_fileNotFound parse fromiso fs (some d) paths₁
          p q hok hmissing paths₂
    · simp only [load_logs, hs, Bool.false_eq_true, if_false] at hok ⊢
      exact loadFiles_append_fileNotFound parse fromiso fs none paths₁ p q
        hok hmissing paths₂

/-- C1 witness: loading `["app.log"]` succeeds with one record; appending a
missing path yields `fileNotFound` with that same store. -/
theorem spec_c1_witness :
    (load_logs demoParse pyFromisoformatDate demoFS ⟨[]⟩ ["app.log"] none
        = (.ok (), ⟨[recNoTs]⟩)
      ∧ fsLookup demoFS "missing.log" = none)
    ∧ load_logs demoParse pyFromisoformatDate demoFS ⟨[]⟩
        ["app.log", "missing.log"] none
        = (.error (.fileNotFound "missing.log"), ⟨[recNoTs]⟩) :=
  ⟨⟨by with_unfolding_all rfl, by with_unfolding_all rfl⟩,
    spec_c1 demoParse pyFromisoformatDate demoFS ⟨[]⟩ ["app.log"]
      "missing.log" [] none ⟨[recNoTs]⟩ (by with_unfolding_all rfl)
      (by with_unfolding_all rfl)⟩

/-- C1 counterexample: after the `fileNotFound` error the Record Store is
NOT empty — it still holds the record loaded from the file that preceded
the missing path, refuting "the Record Store contains no records from any
of the listed files". -/
theorem spec_c1_counterexample :
    (load_logs demoParse pyFromisoformatDate demoFS ⟨[]⟩
        ["app.log", "missing.log"] none).1
      = .error (.fileNotFound "missing.log")
    ∧ (load_logs demoParse pyFromisoformatDate demoFS ⟨[]⟩
        ["app.log", "missing.log"] none).2.logs = [recNoTs]
    ∧ [recNoTs] ≠ ([] : List LogRecord) :=
  ⟨by with_unfolding_all rfl, by with_unfolding_all rfl, by decide⟩

/-- C2 (amended): under an active date filter, a parsed record whose
`@timestamp` is ABSENT or falsy (e.g. the empty string) is APPENDED to the
store unfiltered (not skipped); a record whose `@timestamp` is a truthy
string is appended if and only if it parses as ISO-8601 (`Z` first replaced
by `+00:00`) with calendar date equal to the filter date, and is skipped
silently when it does not parse.  The load of one file appends exactly the
records `keptUnderFilter` keeps, in file order (given no line has a truthy
non-string timestamp, which would instead abort the read). -/
theorem spec_c2 (parse : String → Option LogRecord)
    (fromiso : String → Option PyDate) (fs : FileSystem) (p : LogProcessor)
    {path : String} {lines : List String} {dstr : String} {d : PyDate}
    (hfs : fsLookup fs path = some lines)
    (hds : pyStrptimeDate dstr = some d) (hne : dstr ≠ "")
    (hnofatal : ∀ line ∈ lines,
      processLine parse fromiso (some d) line ≠ .fatal) :
    load_logs parse fromiso fs p [path] (some dstr) =
      (.ok (), ⟨p.logs ++ ((lines.filterMap (strippedParse parse)).filter
        (keptUnderFilter fromiso d))⟩) := by
  have hb : (dstr != "") = true := by simpa using hne
  simp only [load_logs, hb, hds, if_pos]
  simp [loadFiles, hfs,
    loadLines_filter_eq parse fromiso d lines p.logs hnofatal]

set_option maxRecDepth 4000 in
/-- C2 witness: filtering `ts.log` by `2025-06-22` keeps the record
timestamped `2025-06-22T23:59:59+00:00` and drops the one timestamped
`2025-06-23T00:00:00+00:00`. -/
theorem spec_c2_witness :
    (fsLookup demoFS "ts.log" = some [jsonLineTs22, jsonLineTs23]
      ∧ pyStrptimeDate "2025-06-22" = some ⟨2025, 6, 22⟩
      ∧ "2025-06-22" ≠ "")
    ∧ load_logs demoParse pyFromisoformatDate demoFS ⟨[]⟩ ["ts.log"]
        (some "2025-06-22") = (.ok (), ⟨[recTs22]⟩) :=
  ⟨⟨by with_unfolding_all rfl, by with_unfolding_all rfl, by decide⟩,
    (spec_c2 demoParse pyFromisoformatDate demoFS ⟨[]⟩
      (by with_unfolding_all rfl) (by with_unfolding_all rfl) (by decide)
      (by with_unfolding_all decide)).trans
      (by with_unfolding_all rfl)⟩

/-- C2 counterexample: with the filter `2025-06-22` active, the record of
`app.log` has NO `@timestamp` field at all, yet it ends up in the Record
Store — refuting "a record whose `@timestamp` field is absent ... is
skipped silently and never appended". -/
theorem spec_c2_counterexample :
    recGet recNoTs "@timestamp" = none
    ∧ load_logs demoParse pyFromisoformatDate demoFS ⟨[]⟩ ["app.log"]
        (some "2025-06-22") = (.ok (), ⟨[recNoTs]⟩) :=
  ⟨by with_unfolding_all rfl, by with_unfolding_all rfl⟩

/-- C3 (amended): a provided non-empty date-filter string that
`strptime('%Y-%m-%d')` rejects makes `load_logs` fail with the
`ValueError` carrying the offending string, before any path is looked up:
for EVERY file system and EVERY path list (the empty list included) the
result is the same error and the store is untouched.  (As stated the claim
is false: `strptime` also accepts non-zero-padded dates such as
`2025-6-2`, which do not match the literal pattern `YYYY-MM-DD`; see the
counterexample.) -/
theorem spec_c3 (parse : String → Option LogRecord)
    (fromiso : String → Option PyDate) (fs : FileSystem) (p : LogProcessor)
    (file_paths : List String) {s : String} (hne : s ≠ "")
    (hbad : pyStrptimeDate s = none) :
    load_logs parse fromiso fs p file_paths (some s) =
      (.error (.invalidDateFormat s), p) := by
  have hb : (s != "") = true := by simpa using hne
  simp [load_logs, hb, hbad]

/-- C3 witness: the malformed date `2025-13-45` aborts the load with the
validation error on an empty path list and an untouched store. -/
theorem spec_c3_witness :
    ("2025-13-45" ≠ "" ∧ pyStrptimeDate "2025-13-45" = none)
    ∧ load_logs demoParse pyFromisoformatDate demoFS ⟨[]⟩ []
        (some "2025-13-45")
        = (.error (.invalidDateFormat "2025-13-45"), ⟨[]⟩) :=
  ⟨⟨by decide, by with_unfolding_all rfl⟩,
    spec_c3 demoParse pyFromisoformatDate demoFS ⟨[]⟩ [] (by decide)
      (by with_unfolding_all rfl)⟩

/-- C3 counterexample: `2025-6-2` does not match the pattern `YYYY-MM-DD`,
yet `load_logs` raises no `ValidationError` — it proceeds and loads the
file. -/
theorem spec_c3_counterexample :
    specMatchesDatePattern "2025-6-2" = false
    ∧ load_logs demoParse pyFromisoformatDate demoFS ⟨[]⟩ ["app.log"]
        (some "2025-6-2") = (.ok (), ⟨[recNoTs]⟩) :=
  ⟨by with_unfolding_all rfl, by with_unfolding_all rfl⟩

/-- C4: the browser classifier applies the special cases first (empty
string and `"..."` give Unknown) and otherwise returns the label of the
first matching rule of the spec's priority table (Edge before Firefox
before Chrome before Safari-without-Chrome before Opera before Internet
Explorer before curl, wget, Python, Bot/Crawler, else Other),
case-insensitively; a string containing both `Edg/` and `Chrome`
classifies as Edge, and `"Some unknown user agent"` classifies as Other. -/
theorem spec_c4 :
    (∀ ua : String,
      extract_browser_from_user_agent ua = specClassifyBrowser ua)
    ∧ extract_browser_from_user_agent
        "Mozilla/5.0 Chrome/91.0 Safari/537.36 Edg/91.0.864.59" = "Edge"
    ∧ extract_browser_from_user_agent "Some unknown user agent" = "Other"
    ∧ extract_browser_from_user_agent "" = "Unknown"
    ∧ extract_browser_from_user_agent "..." = "Unknown" := by
  refine ⟨fun ua => ?_, ?_, ?_, ?_, ?_⟩
  · unfold extract_browser_from_user_agent specClassifyBrowser
    by_cases h0 : (ua == "" || ua == "...") = true
    · rw [if_pos h0, if_pos h0]
    · rw [if_neg h0, if_neg h0]
      exact browserChain_eq_find (pyLower ua)
  · with_unfolding_all rfl
  · with_unfolding_all rfl
  · with_unfolding_all rfl
  · with_unfolding_all rfl

/-- C9: `generate_report` and `get_report_headers` fail with the
`ValueError` carrying the requested name exactly when the name is not in
the registry; for a registered name the headers call succeeds and the
report call never raises the unregistered-name error, including for names
registered later through `add_report_type`. -/
theorem spec_c9 (registry : List (String × ReportInfo))
    (logs : List LogRecord) (name : String) :
    (assocLookup registry name = none →
      generate_report registry logs name
          = .error (.unsupportedReportType name)
        ∧ get_report_headers registry name
          = .error (.unsupportedReportType name))
    ∧ (∀ info, assocLookup registry name = some info →
        get_report_headers registry name = .ok info.headers
        ∧ ∀ other, generate_report registry logs name
            ≠ .error (.unsupportedReportType other))
    ∧ (∀ method headers description,
        assocLookup
          (add_report_type registry name method headers description) name
          = some ⟨method, headers, description⟩) := by
  refine ⟨?_, ?_, ?_⟩
  · intro h
    exact ⟨by simp [generate_report, h], by simp [get_report_headers, h]⟩
  · intro info h
    refine ⟨by simp [get_report_headers, h], ?_⟩
    intro other
    cases hm : info.method logs with
    | ok out => simp [generate_report, h, hm]
    | error e => simp [generate_report, h, hm]
  · intro method headers description
    exact assocLookup_assocSet_self name _ registry

/-- C9 witness: the default registry at the unregistered name `nope`, at
the registered name `average`, and after registering `custom`. -/
theorem spec_c9_witness :
    generate_report default_report_registry [] "nope"
        = .error (.unsupportedReportType "nope")
    ∧ get_report_headers default_report_registry "nope"
        = .error (.unsupportedReportType "nope")
    ∧ get_report_headers default_report_registry "average"
        = .ok ["handler", "total", "avg_response_time"]
    ∧ (∀ other, generate_report default_report_registry [] "average"
        ≠ .error (.unsupportedReportType other))
    ∧ assocLookup (add_report_type default_report_registry "custom"
          (fun _ => .ok (.customRows [])) ["custom"] "Custom report")
        "custom"
        = some ⟨fun _ => .ok (.customRows []), ["custom"], "Custom report"⟩ :=
  ⟨((spec_c9 default_report_registry [] "nope").1
      (by with_unfolding_all rfl)).1,
   ((spec_c9 default_report_registry [] "nope").1
      (by with_unfolding_all rfl)).2,
   ((spec_c9 default_report_registry [] "average").2.1
      ⟨fun logs => .ok (.averageRows (generate_average_report logs)),
        ["handler", "total", "avg_response_time"],
        "Статистика по эндпоинтам с количеством запросов и средним временем ответа"⟩
      (by with_unfolding_all rfl)).1,
   ((spec_c9 default_report_registry [] "average").2.1
      ⟨fun logs => .ok (.averageRows (generate_average_report logs)),
        ["handler", "total", "avg_response_time"],
        "Статистика по эндпоинтам с количеством запросов и средним временем ответа"⟩
      (by with_unfolding_all rfl)).2,
   (spec_c9 default_report_registry [] "custom").2.2 _ _ _⟩

/-- C10: the three report methods are pure reads of the processor: the
state they return is the one they received, so the stored record sequence
is unchanged (the source never assigns or mutates `self.logs`; `sort`
mutates only the local `report_data`). -/
theorem spec_c10 (p : LogProcessor) :
    (p.generate_average_report).2.logs = p.logs
    ∧ (p.generate_user_agent_report).2.logs = p.logs
    ∧ (p.generate_status_report).2.logs = p.logs :=
  ⟨rfl, rfl, rfl⟩

/-- C5: in each of the three reports the rows are non-increasing in their
count field (`total` / `requests`), and rows with equal counts appear in
the order their groups were first encountered while iterating the store
(the sort is stable): filtering the rows to one count value lists exactly
the first-encounter-ordered group keys whose groups have that size. -/
theorem spec_c5 (logs : List LogRecord) :
    ((generate_average_report logs).Pairwise (fun a b => b.total ≤ a.total)
      ∧ ∀ c : ℕ,
        ((generate_average_report logs).filter
            (fun row => row.total == c)).map (fun row => row.handler)
          = (firstKeys avgExtract logs).filter
              (fun u => (payloadsFor avgExtract logs u).length == c))
    ∧ (∀ rows, generate_user_agent_report logs = .ok rows →
        rows.Pairwise (fun a b => b.requests ≤ a.requests)
        ∧ ∀ c : ℕ,
          (rows.filter (fun row => row.requests == c)).map
              (fun row => row.browser)
            = (firstKeys uaExtract logs).filter
                (fun b => (payloadsFor uaExtract logs b).length == c))
    ∧ ((generate_status_report logs).Pairwise
          (fun a b => b.requests ≤ a.requests)
      ∧ ∀ c : ℕ,
        ((generate_status_report logs).filter
            (fun row => row.requests == c)).map (fun row => row.status_code)
          = (firstKeys statusExtract logs).filter
              (fun s => (payloadsFor statusExtract logs s).length == c)) := by
  refine ⟨?_, ?_, ?_⟩
  · have h := sorted_and_stable_of_stats (endpointStats logs)
      (fun p =>
        ({ handler := p.1
           total := p.2.total_requests
           avg_response_time :=
             pyRoundTo 3
               (if 0 < p.2.total_requests then
                 p.2.total_response_time / (p.2.total_requests : ℚ)
               else 0) } : AvgRow))
      (fun row => row.total) (fun row => row.handler)
      (fun u => (payloadsFor avgExtract logs u).length)
      (fun p hp => by
        obtain ⟨k, st⟩ := p
        exact (endpointStats_mem hp).2.1)
      (fun p => rfl)
    constructor
    · rw [generate_average_report]; exact h.1
    · intro c
      rw [generate_average_report, h.2 c,
        show (endpointStats logs).map Prod.fst = firstKeys avgExtract logs
          from accFold_keys _ _ _ logs]
  · intro rows h
    rw [generate_user_agent_report] at h
    cases hscan : uaScan logs [] 0 with
    | error e => rw [hscan] at h; simp [Except.map] at h
    | ok p =>
      rw [hscan] at h
      simp only [Except.map, Except.ok.injEq] at h
      obtain ⟨m, t⟩ := p
      have hp := uaScan_eq_ok logs [] 0 (m, t) hscan
      have hm : m = accFold 0 (fun _ c => c + 1) uaExtract logs :=
        congrArg Prod.fst hp
      subst hm
      subst h
      have hg := sorted_and_stable_of_stats
        (accFold 0 (fun _ c => c + 1) uaExtract logs)
        (fun bc =>
          ({ browser := bc.1
             requests := bc.2
             percentage :=
               pyRoundTo 2
                 (if 0 < t then (bc.2 : ℚ) / (t : ℚ) * 100 else 0) } : UARow))
        (fun row => row.requests) (fun row => row.browser)
        (fun u => (payloadsFor uaExtract logs u).length)
        (fun p hp => by
          obtain ⟨k, c⟩ := p
          exact (countStats_mem hp).2)
        (fun p => rfl)
      refine ⟨hg.1, fun c => ?_⟩
      rw [hg.2 c, accFold_keys]
  · have hrw : generate_status_report logs
        = sortDescBy (fun row : StatusRow => row.requests)
          ((accFold 0 (fun _ c => c + 1) statusExtract logs).map (fun sc =>
            ({ status_code := sc.1
               requests := sc.2
               percentage :=
                 pyRoundTo 2
                   (if 0 < (logs.filterMap statusExtract).length then
                     (sc.2 : ℚ)
                       / (((logs.filterMap statusExtract).length : ℕ) : ℚ)
                       * 100
                   else 0) } : StatusRow))) := by
      simp only [generate_status_report, statusScan_eq]
    have hg := sorted_and_stable_of_stats
      (accFold 0 (fun _ c => c + 1) statusExtract logs)
      (fun sc =>
        ({ status_code := sc.1
           requests := sc.2
           percentage :=
             pyRoundTo 2
               (if 0 < (logs.filterMap statusExtract).length then
                 (sc.2 : ℚ)
                   / (((logs.filterMap statusExtract).length : ℕ) : ℚ) * 100
               else 0) } : StatusRow))
      (fun row => row.requests) (fun row => row.status_code)
      (fun u => (payloadsFor statusExtract logs u).length)
      (fun p hp => by
        obtain ⟨k, c⟩ := p
        exact (countStats_mem hp).2)
      (fun p => rfl)
    rw [hrw]
    refine ⟨hg.1, fun c => ?_⟩
    rw [hg.2 c, accFold_keys]

/-- C6: the `total` fields of the average report sum to the number of
records whose `url` is present and truthy and whose `response_time` passes
the numeric test `isinstance(response_time, (int, float))` — that is, the
records `avgExtract` accepts (note Python `bool` is an `int` subclass, so
boolean response times pass it); records failing either condition are
excluded without error and contribute to no group. -/
theorem spec_c6 (logs : List LogRecord) :
    ((generate_average_report logs).map (fun row => row.total)).sum
      = (logs.filter (fun r => (avgExtract r).isSome)).length := by
  rw [generate_average_report]
  have hperm := ((sortDescBy_perm (fun row : AvgRow => row.total)
    ((endpointStats logs).map (fun p =>
      { handler := p.1
        total := p.2.total_requests
        avg_response_time :=
          pyRoundTo 3
            (if 0 < p.2.total_requests then
              p.2.total_response_time / (p.2.total_requests : ℚ)
            else 0) }))).map (fun row : AvgRow => row.total))
  rw [hperm.sum_eq, List.map_map]
  have hmap : ((endpointStats logs).map
        ((fun row : AvgRow => row.total) ∘ (fun p =>
          { handler := p.1
            total := p.2.total_requests
            avg_response_time :=
              pyRoundTo 3
                (if 0 < p.2.total_requests then
                  p.2.total_response_time / (p.2.total_requests : ℚ)
                else 0) }))).sum
      = ((endpointStats logs).map (fun p => p.2.total_requests)).sum := rfl
  rw [hmap, sum_endpointStats, length_filterMap_eq]

/-- C7: the average report's scenario from the spec — store
`[{url:"/a",rt:0.1},{url:"/a",rt:0.2},{url:"/b",rt:0.3}]` yields exactly
`[{handler:"/a",total:2,avg:0.15},{handler:"/b",total:1,avg:0.3}]` in that
order — and in general every row's `avg_response_time` is the arithmetic
mean of its group's `response_time` values rounded to 3 decimals, with
`total` the group size. -/
theorem spec_c7 :
    generate_average_report demoAvgLogs
      = [{ handler := .str "/a", total := 2, avg_response_time := mkRat 3 20 },
         { handler := .str "/b", total := 1, avg_response_time := mkRat 3 10 }]
    ∧ ∀ (logs : List LogRecord) (row : AvgRow),
        row ∈ generate_average_report logs →
        0 < row.total
        ∧ row.total = (payloadsFor avgExtract logs row.handler).length
        ∧ row.avg_response_time
            = pyRoundTo 3 ((payloadsFor avgExtract logs row.handler).sum
                / (row.total : ℚ)) := by
  constructor
  · with_unfolding_all rfl
  · intro logs row hrow
    rw [generate_average_report] at hrow
    have hrow' := (sortDescBy_perm (fun row : AvgRow => row.total)
      _).mem_iff.mp hrow
    obtain ⟨p, hp, hrfl⟩ := List.mem_map.mp hrow'
    obtain ⟨k, st⟩ := p
    obtain ⟨hne, htot, hsum⟩ := endpointStats_mem hp
    subst hrfl
    have hpos : 0 < st.total_requests := by
      rw [htot]; exact List.length_pos.mpr hne
    refine ⟨hpos, htot, ?_⟩
    show pyRoundTo 3
        (if 0 < st.total_requests then
          st.total_response_time / (st.total_requests : ℚ)
        else 0) = _
    rw [if_pos hpos, htot, hsum]

/-- C5 witness: the stability and sortedness facts instantiated at a
concrete store for the user-agent report (the conjunct with hypotheses). -/
theorem spec_c5_witness :
    generate_user_agent_report demoPctLogs
        = .ok [⟨"curl", 2, mkRat 6667 100⟩, ⟨"Chrome", 1, mkRat 3333 100⟩]
    ∧ ([⟨"curl", 2, mkRat 6667 100⟩, ⟨"Chrome", 1, mkRat 3333 100⟩]
        : List UARow).Pairwise (fun a b => b.requests ≤ a.requests)
    ∧ (([⟨"curl", 2, mkRat 6667 100⟩, ⟨"Chrome", 1, mkRat 3333 100⟩]
          : List UARow).filter (fun row => row.requests == 2)).map
        (fun row => row.browser)
      = (firstKeys uaExtract demoPctLogs).filter
          (fun b => (payloadsFor uaExtract demoPctLogs b).length == 2) :=
  ⟨by with_unfolding_all rfl,
   ((spec_c5 demoPctLogs).2.1
      [⟨"curl", 2, mkRat 6667 100⟩, ⟨"Chrome", 1, mkRat 3333 100⟩]
      (by with_unfolding_all rfl)).1,
   ((spec_c5 demoPctLogs).2.1
      [⟨"curl", 2, mkRat 6667 100⟩, ⟨"Chrome", 1, mkRat 3333 100⟩]
      (by with_unfolding_all rfl)).2 2⟩

/-- C8: in both percentage reports, when at least one record qualifies, the
`requests` fields sum to the number of qualifying records (the same
quantity that serves as denominator, so excluded records are excluded from
both), and the rounded percentages sum to 100 within rounding tolerance
(at most half of the last kept decimal, 0.005, per row). -/
theorem spec_c8 (logs : List LogRecord) :
    (∀ rows, generate_user_agent_report logs = .ok rows → rows ≠ [] →
      (rows.map (fun row => row.requests)).sum
          = (logs.filter (fun r => (uaExtract r).isSome)).length
        ∧ |(rows.map (fun row => row.percentage)).sum - 100|
            ≤ (rows.length : ℚ) / 200)
    ∧ (generate_status_report logs ≠ [] →
      ((generate_status_report logs).map (fun row => row.requests)).sum
          = (logs.filter (fun r => (statusExtract r).isSome)).length
        ∧ |((generate_status_report logs).map
              (fun row => row.percentage)).sum - 100|
            ≤ ((generate_status_report logs).length : ℚ) / 200) := by
  constructor
  · intro rows h hne
    rw [generate_user_agent_report] at h
    cases hscan : uaScan logs [] 0 with
    | error e => rw [hscan] at h; simp [Except.map] at h
    | ok p =>
      rw [hscan] at h
      simp only [Except.map, Except.ok.injEq] at h
      obtain ⟨m, t⟩ := p
      have hp := uaScan_eq_ok logs [] 0 (m, t) hscan
      have hm : m = accFold 0 (fun _ c => c + 1) uaExtract logs :=
        congrArg Prod.fst hp
      have ht2 : t = (logs.filterMap uaExtract).length := by
        have := congrArg Prod.snd hp
        simpa using this
      subst hm
      subst ht2
      exact pct_report_sums uaExtract logs _
        (fun row : UARow => row.requests) (fun row : UARow => row.percentage)
        (fun p => rfl) (fun p => rfl) rows h.symm hne
  · intro hne
    have hrw : generate_status_report logs
        = sortDescBy (fun row : StatusRow => row.requests)
          ((accFold 0 (fun _ c => c + 1) statusExtract logs).map (fun sc =>
            ({ status_code := sc.1
               requests := sc.2
               percentage :=
                 pyRoundTo 2
                   (if 0 < (logs.filterMap statusExtract).length then
                     (sc.2 : ℚ)
                       / (((logs.filterMap statusExtract).length : ℕ) : ℚ)
                       * 100
                   else 0) } : StatusRow))) := by
      simp only [generate_status_report, statusScan_eq]
    exact pct_report_sums statusExtract logs _
      (fun row : StatusRow => row.requests)
      (fun row : StatusRow => row.percentage)
      (fun p => rfl) (fun p => rfl) _ hrw hne

/-- C8 witness: both percentage reports on a concrete store with three
qualifying records each (the percentages 66.67 and 33.33 sum to 100
exactly). -/
theorem spec_c8_witness :
    (generate_user_agent_report demoPctLogs
        = .ok [⟨"curl", 2, mkRat 6667 100⟩, ⟨"Chrome", 1, mkRat 3333 100⟩]
      ∧ ([⟨"curl", 2, mkRat 6667 100⟩, ⟨"Chrome", 1, mkRat 3333 100⟩]
          : List UARow) ≠ []
      ∧ generate_status_report demoPctLogs ≠ [])
    ∧ (([⟨"curl", 2, mkRat 6667 100⟩, ⟨"Chrome", 1, mkRat 3333 100⟩]
          : List UARow).map (fun row => row.requests)).sum
        = (demoPctLogs.filter (fun r => (uaExtract r).isSome)).length
    ∧ |(([⟨"curl", 2, mkRat 6667 100⟩, ⟨"Chrome", 1, mkRat 3333 100⟩]
          : List UARow).map (fun row => row.percentage)).sum - 100|
        ≤ (([⟨"curl", 2, mkRat 6667 100⟩, ⟨"Chrome", 1, mkRat 3333 100⟩]
            : List UARow).length : ℚ) / 200
    ∧ ((generate_status_report demoPctLogs).map
          (fun row => row.requests)).sum
        = (demoPctLogs.filter (fun r => (statusExtract r).isSome)).length :=
  ⟨⟨by with_unfolding_all rfl, by decide, by with_unfolding_all decide⟩,
   ((spec_c8 demoPctLogs).1 _ (by with_unfolding_all rfl) (by decide)).1,
   ((spec_c8 demoPctLogs).1 _ (by with_unfolding_all rfl) (by decide)).2,
   ((spec_c8 demoPctLogs).2 (by with_unfolding_all decide)).1⟩

/-- C7 witness: the general mean property instantiated at the spec's
scenario store and its first row. -/
theorem spec_c7_witness :
    ((⟨.str "/a", 2, mkRat 3 20⟩ : AvgRow)
        ∈ generate_average_report demoAvgLogs)
    ∧ (0 < (2 : ℕ)
        ∧ (2 : ℕ) = (payloadsFor avgExtract demoAvgLogs (.str "/a")).length
        ∧ mkRat 3 20
            = pyRoundTo 3 ((payloadsFor avgExtract demoAvgLogs
                (.str "/a")).sum / ((2 : ℕ) : ℚ))) :=
  ⟨by with_unfolding_all decide,
    spec_c7.2 demoAvgLogs ⟨.str "/a", 2, mkRat 3 20⟩
      (by with_unfolding_all decide)⟩

end LogFile
